import Mathlib

/-!
Verification development for the p2p repository.

The source files embedded here:
* `src/protocols/discovery/src/addr.rs` — `ConnectableAddr`, `AddrKnown`
* `src/src/utils/dns.rs` — `DNSResolver`
* `src/src/context.rs` — `SessionContext`, `SessionController`
* `src/src/substream.rs` — `Substream` and its poll-cycle operations

Rust containers are embedded as functional data:
* `HashSet<T>` as a duplicate-free `List T` (insert is a no-op on members),
* `HashMap<K, V>` as an association `List (K × V)` with replace-on-insert,
* `BTreeMap<K, V>` as an association list kept sorted ascending by key, so
  that `iter().next()` is the head,
* `Instant` as a `Nat` timestamp supplied explicitly at each `insert`
  (the side effect of `Instant::now()` is externalized as an input),
* `usize` arithmetic on the shared `pending_data_size` counter wraps
  modulo `2 ^ 64` exactly as `fetch_add` / `fetch_sub` do.
-/

namespace P2P

/-! ## Multiaddr protocol components (external `multiaddr` crate interface) -/

/-- One multiaddr protocol component; the variants used by this repository. -/
inductive Protocol where
  | ip4 (addr : List Nat)
  | ip6 (addr : List Nat)
  | dns4 (domain : String)
  | dns6 (domain : String)
  | tls (sni : String)
  | tcp (port : Nat)
  | ws
  | p2p (hash : List Nat)
deriving DecidableEq, Repr

/-- A multiaddr is a sequence of protocol components. -/
abbrev Multiaddr := List Protocol

/-- Modelled from the spec: the external multiaddr crate's
`Protocol::write_to_bytes` wire encoding (a tag byte followed by the
payload bytes).  Only the facts that distinct components serialize to
distinct byte strings and that the host field holds the serialized form
matter to the claims. -/
def protoWriteToBytes : Protocol → List Nat
  | .ip4 a => 0 :: a
  | .ip6 a => 1 :: a
  | .dns4 d => 2 :: d.toList.map Char.toNat
  | .dns6 d => 3 :: d.toList.map Char.toNat
  | .tls s => 4 :: s.toList.map Char.toNat
  | .tcp p => 5 :: [p % 256, p / 256]
  | .ws => [6]
  | .p2p h => 7 :: h

/-- Whether a component is one of the host-bearing variants matched by
`ConnectableAddr::from` (`IP4 | IP6 | DNS4 | DNS6 | TLS`). -/
def isHostBearing : Protocol → Bool
  | .ip4 _ | .ip6 _ | .dns4 _ | .dns6 _ | .tls _ => true
  | _ => false

/-! ## ConnectableAddr (`protocols/discovery/src/addr.rs`) -/

/-- The pair stored by the discovery protocol: serialized host component and
TCP port. -/
structure ConnectableAddr where
  host : List Nat
  port : Nat
deriving DecidableEq, Repr

/-- One step of the `for proto in addr.iter()` loop in
`impl From<&Multiaddr> for ConnectableAddr`: host-bearing components
overwrite `host`, a TCP component overwrites `port`, everything else is
ignored. -/
def connectableAddrStep (acc : Option (List Nat) × Nat) (proto : Protocol) :
    Option (List Nat) × Nat :=
  match proto with
  | .ip4 _ | .ip6 _ | .dns4 _ | .dns6 _ | .tls _ =>
      (some (protoWriteToBytes proto), acc.2)
  | .tcp p => (acc.1, p)
  | _ => acc

/-- `impl From<&Multiaddr> for ConnectableAddr`.  The source ends with
`host.expect("impossible, unsupported host protocol")`; the panic on a
multiaddr holding no host-bearing component is embedded as `none`. -/
def connectableAddrFromMultiaddr (addr : Multiaddr) : Option ConnectableAddr :=
  match addr.foldl connectableAddrStep (none, 0) with
  | (some host, port) => some { host := host, port := port }
  | (none, _) => none

/-- The first host-bearing component of a multiaddr (what claim C7 asserts
is used). -/
def firstHostBearing (addr : Multiaddr) : Option Protocol :=
  addr.find? isHostBearing

/-- The last host-bearing component of a multiaddr (what the source
actually uses, because every later match overwrites `host`). -/
def lastHostBearing : Multiaddr → Option Protocol
  | [] => none
  | p :: rest =>
      match lastHostBearing rest with
      | some q => some q
      | none => if isHostBearing p then some p else none

/-- The port assigned by the loop: the argument of the last TCP component,
starting from `0u16`. -/
def lastTcpPort (addr : Multiaddr) (dflt : Nat) : Nat :=
  addr.foldl (fun acc proto => match proto with | .tcp p => p | _ => acc) dflt

/-! ## AddrKnown (`protocols/discovery/src/addr.rs`) -/

/-- Insert into the `HashSet` model: no-op when the element is present,
otherwise cons. -/
def setInsert (l : List ConnectableAddr) (a : ConnectableAddr) :
    List ConnectableAddr :=
  if a ∈ l then l else a :: l

/-- Remove from the `HashSet` model. -/
def setRemove (l : List ConnectableAddr) (a : ConnectableAddr) :
    List ConnectableAddr :=
  l.filter (fun x => x ≠ a)

/-- Insert into the `HashMap` model: replace the value at an existing key,
otherwise append the new binding. -/
def mapInsert {K V : Type} [DecidableEq K] (l : List (K × V)) (k : K) (v : V) :
    List (K × V) :=
  match l with
  | [] => [(k, v)]
  | (k', v') :: rest =>
      if k = k' then (k, v) :: rest else (k', v') :: mapInsert rest k v

/-- Lookup in the `HashMap` model. -/
def mapLookup {K V : Type} [DecidableEq K] (l : List (K × V)) (k : K) :
    Option V :=
  match l with
  | [] => none
  | (k', v') :: rest => if k' = k then some v' else mapLookup rest k

/-- Remove a key from the `HashMap` model. -/
def mapRemove {K V : Type} [DecidableEq K] (l : List (K × V)) (k : K) :
    List (K × V) :=
  l.filter (fun p => p.1 ≠ k)

/-- Insert into the `BTreeMap` model: place the binding at its sorted
position by key, replacing an equal key. -/
def btreeInsert {V : Type} (l : List (Nat × V)) (k : Nat) (v : V) :
    List (Nat × V) :=
  match l with
  | [] => [(k, v)]
  | (k', v') :: rest =>
      if k < k' then (k, v) :: (k', v') :: rest
      else if k = k' then (k, v) :: rest
      else (k', v') :: btreeInsert rest k v

/-- The bounded known-address set: three parallel indexes, as in the
source. -/
structure AddrKnown where
  max_known : Nat
  addrs : List ConnectableAddr
  addr_times : List (ConnectableAddr × Nat)
  time_addrs : List (Nat × ConnectableAddr)
deriving Repr

/-- `AddrKnown::new`. -/
def AddrKnown.new (max_known : Nat) : AddrKnown :=
  { max_known := max_known, addrs := [], addr_times := [], time_addrs := [] }

/-- `AddrKnown::insert`.  `now` is the value of `Instant::now()` at the
call.  On overflow the entry at `self.time_addrs.iter().next()` (the
smallest key of the `BTreeMap`, i.e. the head of the sorted list) is
removed from all three indexes; the `unwrap` cannot fire because the map
was just inserted into, and the impossible empty case leaves the state
unevicted. -/
def AddrKnown.insert (ak : AddrKnown) (now : Nat) (key : ConnectableAddr) :
    AddrKnown :=
  let addrs := setInsert ak.addrs key
  let time_addrs := btreeInsert ak.time_addrs now key
  let addr_times := mapInsert ak.addr_times key now
  if addrs.length > ak.max_known then
    match time_addrs.head? with
    | some (first_time, first_key) =>
        { max_known := ak.max_known
          addrs := setRemove addrs first_key
          addr_times := mapRemove addr_times first_key
          time_addrs := mapRemove time_addrs first_time }
    | none =>
        { max_known := ak.max_known
          addrs := addrs, addr_times := addr_times, time_addrs := time_addrs }
  else
    { max_known := ak.max_known
      addrs := addrs, addr_times := addr_times, time_addrs := time_addrs }

/-- `AddrKnown::contains`. -/
def AddrKnown.containsAddr (ak : AddrKnown) (addr : ConnectableAddr) : Prop :=
  addr ∈ ak.addrs

instance (ak : AddrKnown) (addr : ConnectableAddr) :
    Decidable (ak.containsAddr addr) := by
  unfold AddrKnown.containsAddr
  infer_instance

/-- One step of `AddrKnown::remove`'s iterator loop. -/
def AddrKnown.removeOne (ak : AddrKnown) (addr : ConnectableAddr) : AddrKnown :=
  let addrs := setRemove ak.addrs addr
  match mapLookup ak.addr_times addr with
  | some time =>
      { max_known := ak.max_known
        addrs := addrs
        addr_times := mapRemove ak.addr_times addr
        time_addrs := mapRemove ak.time_addrs time }
  | none =>
      { max_known := ak.max_known
        addrs := addrs
        addr_times := ak.addr_times
        time_addrs := ak.time_addrs }

/-- `AddrKnown::remove` over an iterator of addresses. -/
def AddrKnown.removeAddrs (ak : AddrKnown) (l : List ConnectableAddr) :
    AddrKnown :=
  l.foldl AddrKnown.removeOne ak

/-- An observable operation on an `AddrKnown`. -/
inductive AddrOp where
  | insert (now : Nat) (key : ConnectableAddr)
  | remove (l : List ConnectableAddr)
deriving Repr

/-- Apply one operation. -/
def AddrKnown.applyOp (ak : AddrKnown) : AddrOp → AddrKnown
  | .insert now key => ak.insert now key
  | .remove l => ak.removeAddrs l

/-- Apply a sequence of operations. -/
def AddrKnown.applyOps (ak : AddrKnown) (ops : List AddrOp) : AddrKnown :=
  ops.foldl AddrKnown.applyOp ak

/-- Timestamps of inserts along a run are strictly increasing and start
after `t`; this is how successive `Instant::now()` calls behave. -/
def monotoneOpsFrom (t : Nat) : List AddrOp → Prop
  | [] => True
  | .insert now _ :: rest => t < now ∧ monotoneOpsFrom now rest
  | .remove _ :: rest => monotoneOpsFrom t rest

instance (t : Nat) (ops : List AddrOp) : Decidable (monotoneOpsFrom t ops) := by
  induction ops generalizing t with
  | nil => exact isTrue trivial
  | cons op rest ih =>
      cases op with
      | insert now key =>
          have : Decidable (monotoneOpsFrom now rest) := ih now
          exact instDecidableAnd
      | remove l => exact ih t

/-- The coherence property stated by claim C5: the three indexes cover
identical sets of addresses (the `addrs` set, the keys of `addr_times`,
the values of `time_addrs`) and their sizes are all equal. -/
def AddrKnown.coherent (ak : AddrKnown) : Prop :=
  ak.addrs.length = ak.addr_times.length ∧
  ak.addrs.length = ak.time_addrs.length ∧
  (∀ a ∈ ak.addrs, a ∈ ak.addr_times.map (fun p => p.1)) ∧
  (∀ a ∈ ak.addr_times.map (fun p => p.1), a ∈ ak.addrs) ∧
  (∀ a ∈ ak.addrs, a ∈ ak.time_addrs.map (fun p => p.2)) ∧
  (∀ a ∈ ak.time_addrs.map (fun p => p.2), a ∈ ak.addrs)

instance (ak : AddrKnown) : Decidable ak.coherent := by
  unfold AddrKnown.coherent
  infer_instance

/-! ## DNS resolver (`src/utils/dns.rs`) -/

/-- An IP address, v4 or v6. -/
inductive IpAddr where
  | v4 (octets : List Nat)
  | v6 (segments : List Nat)
deriving DecidableEq, Repr

/-- A resolved socket address. -/
structure SocketAddr where
  ip : IpAddr
  port : Nat
deriving DecidableEq, Repr

/-- Modelled from the spec: `utils::socketaddr_to_multiaddr` (in
`src/utils/mod.rs`, not included under `src/`) synthesizes an
`/ip{4,6}/../tcp/..` multiaddr from a socket address (§4.2, §6). -/
def socketaddrToMultiaddr (addr : SocketAddr) : Multiaddr :=
  match addr.ip with
  | .v4 a => [.ip4 a, .tcp addr.port]
  | .v6 a => [.ip6 a, .tcp addr.port]

/-- Modelled from the spec: `utils::is_ws` (in `src/utils/mod.rs`, not
included under `src/`) tests whether the multiaddr contains a `Ws`
component (§6: preserved suffixes include `ws`). -/
def isWsAddr (addr : Multiaddr) : Bool :=
  addr.any (fun p => p = Protocol.ws)

/-- Modelled from the spec: `utils::extract_peer_id` (in
`src/utils/mod.rs`, not included under `src/`) extracts the
multihash-encoded peer id of a `P2p` component, if any (§6). -/
def extractPeerId (addr : Multiaddr) : Option (List Nat) :=
  addr.findSome? (fun p => match p with | .p2p h => some h | _ => none)

/-- The `loop` in `DNSResolver::new` scanning for a `Dns4`/`Dns6`
component directly followed by a `Tcp` component.  A `Dns` component
followed by anything else consumes both components and continues; a
missing second component makes `iter.next()?` return `None`. -/
def findDnsTcp : Multiaddr → Option (String × Nat)
  | [] => none
  | .dns4 d :: rest =>
      match rest with
      | .tcp port :: _ => some (d, port)
      | _ :: rest2 => findDnsTcp rest2
      | [] => none
  | .dns6 d :: rest =>
      match rest with
      | .tcp port :: _ => some (d, port)
      | _ :: rest2 => findDnsTcp rest2
      | [] => none
  | _ :: rest => findDnsTcp rest

/-- The resolver state built by `DNSResolver::new` (the tokio join handle
carries no logic and is omitted). -/
structure DNSResolver where
  source_address : Multiaddr
  peer_id : Option (List Nat)
  ws : Bool
  port : Nat
  domain : String
deriving DecidableEq, Repr

/-- `DNSResolver::new`. -/
def DNSResolver.new (source_address : Multiaddr) : Option DNSResolver :=
  match findDnsTcp source_address with
  | some (domain, port) =>
      some { source_address := source_address
             peer_id := extractPeerId source_address
             ws := isWsAddr source_address
             domain := domain
             port := port }
  | none => none

/-- `DNSResolver::new_addr`: build the result multiaddr from the first
resolved socket address, then re-append `Ws` and `P2p` when the source
address carried them.  An empty resolution is an `InvalidData` error
paired with the source address. -/
def DNSResolver.new_addr (r : DNSResolver) (iter : List SocketAddr) :
    Except (Multiaddr × Unit) Multiaddr :=
  match iter with
  | address :: _ =>
      let addr1 := socketaddrToMultiaddr address
      let addr2 := if r.ws then addr1 ++ [Protocol.ws] else addr1
      let addr3 :=
        match r.peer_id with
        | some pid => addr2 ++ [Protocol.p2p pid]
        | none => addr2
      .ok addr3
  | [] => .error (r.source_address, ())

/-! ## Shared primitives for the session/substream engine -/

/-- Byte strings (`bytes::Bytes` / `BytesMut`). -/
abbrev Bytes := List Nat

/-- The wrap-around modulus of `usize` arithmetic on the shared
`pending_data_size` atomic. -/
def usizeMod : Nat := 2 ^ 64

/-- Wrapping `fetch_add` on a `usize`. -/
def usizeAdd (p n : Nat) : Nat := (p + n) % usizeMod

/-- Wrapping `fetch_sub` on a `usize`. -/
def usizeSub (p n : Nat) : Nat := (p + (usizeMod - n % usizeMod)) % usizeMod

/-- Channel priority (`channel::mpsc::Priority`). -/
inductive Priority where
  | high
  | normal
deriving DecidableEq, Repr

/-- `Priority::is_high`. -/
def Priority.is_high : Priority → Bool
  | .high => true
  | .normal => false

/-- The `std::io::ErrorKind` values distinguished by the substream's codec
error policy, plus representatives of every other kind. -/
inductive IoErrorKind where
  | brokenPipe
  | connectionAborted
  | connectionReset
  | notConnected
  | unexpectedEof
  | invalidData
  | timedOut
  | wouldBlock
  | permissionDenied
  | other
deriving DecidableEq, Repr

/-- The kinds matched by the first arm of the codec-error `match` in
`Substream::recv_frame` (silently mark dead). -/
def isFatalKind : IoErrorKind → Bool
  | .brokenPipe | .connectionAborted | .connectionReset
  | .notConnected | .unexpectedEof => true
  | _ => false

/-! ## Events -/

/-- `ProtocolEvent` (substream ⇄ session).  The `Open` variant's boxed
framed handle is not data and is omitted. -/
inductive ProtocolEvent where
  | openProto (proto_name : String) (version : String)
  | close (id : Nat) (proto_id : Nat)
  | message (id : Nat) (proto_id : Nat) (data : Bytes)
  | selectError (proto_name : Option String)
  | error (id : Nat) (proto_id : Nat) (errorKind : IoErrorKind)
  | timeoutCheck
deriving DecidableEq, Repr

/-- `ServiceProtocolEvent` variants touched by the substream (the
`Connected` session pointer is reduced to the session id). -/
inductive ServiceProtocolEvent where
  | connected (session : Nat) (version : String)
  | disconnected (id : Nat)
  | received (id : Nat) (data : Bytes)
deriving DecidableEq, Repr

/-- `SessionProtocolEvent` variants touched by the substream. -/
inductive SessionProtocolEvent where
  | opened (version : String)
  | closed
  | disconnected
  | received (data : Bytes)
deriving DecidableEq, Repr

/-- `SessionEvent` variants touched by `SessionController` (only
`ProtocolMessage` is constructed in `context.rs`). -/
inductive SessionEvent where
  | protocolMessage (id : Nat) (proto_id : Nat) (data : Bytes)
  | sessionClose (id : Nat)
deriving DecidableEq, Repr

/-! ## Buffer (`src/buffer.rs`, modelled from the spec) -/

/-- Result of a buffer drain attempt (`buffer::SendResult`). -/
inductive SendResult where
  | ok
  | pending
  | disconnect
deriving DecidableEq, Repr

/-- One readiness answer of the channel sender underlying a buffer. -/
inductive SendReady where
  | ready
  | notReady
  | disconnected
deriving DecidableEq, Repr

/-- Modelled from the spec: `buffer::Buffer` (`src/buffer.rs` is not
included under `src/`).  Per §4.1 it is a FIFO queue in front of a
bounded sender; `try_send` repeatedly checks the sender's readiness and,
while ready, hands over the front item; it answers `Ok` once the queue is
empty, `Pending` on a not-ready sender with items left, and `Disconnect`
when the receiving side is gone.  The sender's readiness answers are an
explicit oracle list (an exhausted oracle answers not-ready) and items
handed over are recorded in `sentItems`. -/
structure Buffer (α : Type) where
  queue : List α
  readyOracle : List SendReady
  sentItems : List α
deriving DecidableEq, Repr

/-- The drain loop of `Buffer::try_send`. -/
def trySendLoop {α : Type} (queue : List α) (oracle : List SendReady)
    (sent : List α) : List α × List SendReady × List α × SendResult :=
  match queue with
  | [] => ([], oracle, sent, .ok)
  | x :: xs =>
      match oracle with
      | [] => (x :: xs, [], sent, .pending)
      | .ready :: rs => trySendLoop xs rs (sent ++ [x])
      | .notReady :: rs => (x :: xs, rs, sent, .pending)
      | .disconnected :: rs => (x :: xs, rs, sent, .disconnect)

/-- `Buffer::try_send`. -/
def Buffer.try_send {α : Type} (b : Buffer α) : Buffer α × SendResult :=
  match trySendLoop b.queue b.readyOracle b.sentItems with
  | (queue, oracle, sent, r) =>
      ({ queue := queue, readyOracle := oracle, sentItems := sent }, r)

/-- `Buffer::push`. -/
def Buffer.push {α : Type} (b : Buffer α) (a : α) : Buffer α :=
  { b with queue := b.queue ++ [a] }

/-- `Buffer::len`. -/
def Buffer.lenQ {α : Type} (b : Buffer α) : Nat := b.queue.length

/-- `Buffer::is_empty`. -/
def Buffer.isEmptyQ {α : Type} (b : Buffer α) : Bool := b.queue.isEmpty

/-- `Buffer::clear`. -/
def Buffer.clear {α : Type} (b : Buffer α) : Buffer α := { b with queue := [] }

/-- `Buffer::take`: extract the pending queue (the sender half moves onto
a detached task; the emptied buffer remains). -/
def Buffer.take {α : Type} (b : Buffer α) : List α × Buffer α :=
  (b.queue, { b with queue := [] })

/-! ## Session configuration (`service/config.rs`, modelled from the spec) -/

/-- Modelled from the spec: `SessionConfig` (`src/service/config.rs` is
not included under `src/`); `send_event_size` and `recv_event_size` are
the per-substream soft caps, default 512 (§6 Configuration). -/
structure SessionConfig where
  sendEventSize : Nat := 512
  recvEventSize : Nat := 512
deriving DecidableEq, Repr

/-- `SessionConfig::send_event_size`. -/
def SessionConfig.send_event_size (c : SessionConfig) : Nat := c.sendEventSize

/-- `SessionConfig::recv_event_size`. -/
def SessionConfig.recv_event_size (c : SessionConfig) : Nat := c.recvEventSize

/-! ## The framed sink/stream (`Framed<StreamHandle, U>` interface) -/

/-- Answer of `poll_ready` / `poll_flush` on the framed sink. -/
inductive PollSinkResult where
  | ready
  | pending
  | ioError (kind : IoErrorKind)
deriving DecidableEq, Repr

/-- Answer of `poll_next` on the framed stream. -/
inductive PollNextResult where
  | frame (data : Bytes)
  | closed
  | pending
  | frameError (kind : IoErrorKind)
deriving DecidableEq, Repr

/-- The framed, codec-wrapped yamux substream, seen through its async
interface: each call of `poll_ready`, `start_send`, `poll_flush` and
`poll_next` consumes the next answer of the corresponding oracle list
(an exhausted oracle answers `pending`, i.e. the environment stays
quiescent).  Frames accepted by `start_send` are appended to `sent`. -/
structure FramedSink where
  readyOracle : List PollSinkResult
  startSendOracle : List (Option IoErrorKind)
  flushOracle : List PollSinkResult
  nextOracle : List PollNextResult
  sent : List Bytes
deriving DecidableEq, Repr

/-- Consume one `poll_ready` answer. -/
def FramedSink.pollReady (s : FramedSink) : PollSinkResult × FramedSink :=
  match s.readyOracle with
  | [] => (.pending, s)
  | r :: rest => (r, { s with readyOracle := rest })

/-- Consume one `start_send` answer; on success the frame is handed to the
sink. -/
def FramedSink.startSend (s : FramedSink) (frame : Bytes) :
    Option IoErrorKind × FramedSink :=
  match s.startSendOracle with
  | [] => (none, { s with sent := s.sent ++ [frame] })
  | none :: rest =>
      (none, { s with startSendOracle := rest, sent := s.sent ++ [frame] })
  | some e :: rest => (some e, { s with startSendOracle := rest })

/-- Consume one `poll_flush` answer. -/
def FramedSink.pollFlush (s : FramedSink) : PollSinkResult × FramedSink :=
  match s.flushOracle with
  | [] => (.pending, s)
  | r :: rest => (r, { s with flushOracle := rest })

/-- Consume one `poll_next` answer. -/
def FramedSink.pollNext (s : FramedSink) : PollNextResult × FramedSink :=
  match s.nextOracle with
  | [] => (.pending, s)
  | r :: rest => (r, { s with nextOracle := rest })

/-! ## Substream (`src/substream.rs`) -/

/-- Answer of a `Poll<Option<()>>`-shaped polling method. -/
inductive PollState where
  | readySome
  | readyNone
  | pending
deriving DecidableEq, Repr

/-- The per-protocol substream actor.  `contextClosed` and
`pendingDataSize` are the two shared atomics of the `SessionContext`
(`context.closed`, `context.pending_data_size`); `contextId` is
`context.id`.  `event_receiver` is the priority channel from the session:
its already-enqueued commands as a list, plus `receiverDropped` telling
whether all senders are gone (so that an empty queue polls `Ready(None)`
instead of `Pending`).  `spawned…` lists collect the events handed to the
detached teardown tasks, and `framesRead` counts the complete frames
obtained from the socket; both are observers with no influence on the
control flow. -/
structure Substream where
  substream : FramedSink
  id : Nat
  proto_id : Nat
  contextId : Nat
  contextClosed : Bool
  pendingDataSize : Nat
  event : Bool
  config : SessionConfig
  high_write_buf : List Bytes
  write_buf : List Bytes
  dead : Bool
  keep_buffer : Bool
  event_sender : Buffer ProtocolEvent
  event_receiver : List (Priority × ProtocolEvent)
  receiverDropped : Bool
  receiverClosed : Bool
  service_proto_sender : Option (Buffer ServiceProtocolEvent)
  session_proto_sender : Option (Buffer SessionProtocolEvent)
  before_receive : Option (Bytes → Except IoErrorKind Bytes)
  spawnedUpward : List ProtocolEvent
  spawnedService : List ServiceProtocolEvent
  spawnedSession : List SessionProtocolEvent
  framesRead : Nat

/-- `SessionContext::decr_pending_data_size` as seen from the substream. -/
def Substream.decr_pending_data_size (st : Substream) (data_size : Nat) :
    Substream :=
  { st with pendingDataSize := usizeSub st.pendingDataSize data_size }

/-- `Substream::push_front`. -/
def Substream.push_front (st : Substream) (priority : Priority)
    (frame : Bytes) : Substream :=
  if priority.is_high then
    { st with high_write_buf := frame :: st.high_write_buf }
  else
    { st with write_buf := frame :: st.write_buf }

/-- `Substream::push_back`. -/
def Substream.push_back (st : Substream) (priority : Priority)
    (frame : Bytes) : Substream :=
  if priority.is_high then
    { st with high_write_buf := st.high_write_buf ++ [frame] }
  else
    { st with write_buf := st.write_buf ++ [frame] }

/-- `Substream::send_inner`: check the sink's readiness; when ready, hand
the frame over with `start_send` and decrement `pending_data_size` by the
frame's length; when the sink reports back-pressure, push the frame back
to the front of its queue and answer `true`. -/
def Substream.send_inner (st : Substream) (frame : Bytes)
    (priority : Priority) : Substream × Except IoErrorKind Bool :=
  let data_size := frame.length
  match st.substream.pollReady with
  | (.ready, sink) =>
      match sink.startSend frame with
      | (none, sink2) =>
          (Substream.decr_pending_data_size { st with substream := sink2 }
            data_size, .ok false)
      | (some e, sink2) => ({ st with substream := sink2 }, .error e)
  | (.pending, sink) =>
      (Substream.push_front { st with substream := sink } priority frame,
        .ok true)
  | (.ioError e, sink) => ({ st with substream := sink }, .error e)

/-- `Substream::poll_complete`: `true` means the flush is still pending. -/
def Substream.poll_complete (st : Substream) :
    Substream × Except IoErrorKind Bool :=
  match st.substream.pollFlush with
  | (.pending, sink) => ({ st with substream := sink }, .ok true)
  | (.ready, sink) => ({ st with substream := sink }, .ok false)
  | (.ioError e, sink) => ({ st with substream := sink }, .error e)

/-- The write queue selected by a priority (`high_write_buf` for high,
`write_buf` for normal). -/
def Substream.bufOf (st : Substream) (priority : Priority) : List Bytes :=
  if priority.is_high then st.high_write_buf else st.write_buf

/-- Replace the write queue selected by a priority (the `pop_front` of the
`while let` loop head). -/
def Substream.setBufOf (st : Substream) (priority : Priority)
    (l : List Bytes) : Substream :=
  if priority.is_high then { st with high_write_buf := l }
  else { st with write_buf := l }

theorem bufOf_setBufOf (st : Substream) (p : Priority) (l : List Bytes) :
    (st.setBufOf p l).bufOf p = l := by
  cases p <;> simp [Substream.bufOf, Substream.setBufOf, Priority.is_high]

theorem setBufOf_substream (st : Substream) (p : Priority) (l : List Bytes) :
    (st.setBufOf p l).substream = st.substream := by
  cases p <;> simp [Substream.setBufOf, Priority.is_high]

theorem bufOf_push_front (st : Substream) (p : Priority) (f : Bytes) :
    (st.push_front p f).bufOf p = f :: st.bufOf p := by
  cases p <;> simp [Substream.bufOf, Substream.push_front, Priority.is_high]

theorem push_front_substream (st : Substream) (p : Priority) (f : Bytes) :
    (st.push_front p f).substream = st.substream := by
  cases p <;> simp [Substream.push_front, Priority.is_high]

/-- Effect of `send_inner` on the quantities that the send loop's
termination measure watches, in the `Ok(false)` (frame accepted) case. -/
theorem send_inner_ok_false_sizes (st : Substream) (f : Bytes) (p : Priority)
    (st' : Substream) (h : st.send_inner f p = (st', .ok false)) :
    st'.high_write_buf = st.high_write_buf ∧
    st'.write_buf = st.write_buf ∧
    st'.substream.readyOracle.length < st.substream.readyOracle.length ∧
    st'.substream.flushOracle = st.substream.flushOracle := by
  unfold Substream.send_inner FramedSink.pollReady at h
  cases hr : st.substream.readyOracle with
  | nil =>
      rw [hr] at h
      simp at h
  | cons r rs =>
      rw [hr] at h
      cases r with
      | ready =>
          unfold FramedSink.startSend at h
          cases hs : st.substream.startSendOracle with
          | nil =>
              simp [hs, Substream.decr_pending_data_size] at h
              subst h
              simp [hr]
          | cons o os =>
              cases o with
              | none =>
                  simp [hs, Substream.decr_pending_data_size] at h
                  subst h
                  simp [hr]
              | some e => simp [hs] at h
      | pending => simp at h
      | ioError e => simp at h

/-- Effect of `send_inner` in the `Ok(true)` (back-pressure) case: the
frame went back to the front of its own queue and no sink answer beyond
the one `poll_ready` was consumed. -/
theorem send_inner_ok_true_sizes (st : Substream) (f : Bytes) (p : Priority)
    (st' : Substream) (h : st.send_inner f p = (st', .ok true)) :
    st'.bufOf p = f :: st.bufOf p ∧
    st'.substream.readyOracle.length ≤ st.substream.readyOracle.length ∧
    st'.substream.flushOracle = st.substream.flushOracle := by
  unfold Substream.send_inner FramedSink.pollReady at h
  cases hr : st.substream.readyOracle with
  | nil =>
      rw [hr] at h
      simp at h
      subst h
      refine ⟨bufOf_push_front _ p f, ?_, ?_⟩ <;>
        simp [push_front_substream, hr]
  | cons r rs =>
      rw [hr] at h
      cases r with
      | ready =>
          unfold FramedSink.startSend at h
          cases hs : st.substream.startSendOracle with
          | nil => simp [hs, Substream.decr_pending_data_size] at h
          | cons o os =>
              cases o with
              | none => simp [hs, Substream.decr_pending_data_size] at h
              | some e => simp [hs] at h
      | pending =>
          simp at h
          subst h
          refine ⟨bufOf_push_front _ p f, ?_, ?_⟩ <;>
            simp [push_front_substream, hr]
      | ioError e => simp at h

/-- Effect of `poll_complete` in the flush-completed case. -/
theorem poll_complete_ok_false_sizes (st : Substream) (st' : Substream)
    (h : st.poll_complete = (st', .ok false)) :
    st'.high_write_buf = st.high_write_buf ∧
    st'.write_buf = st.write_buf ∧
    st'.substream.readyOracle = st.substream.readyOracle ∧
    st'.substream.flushOracle.length < st.substream.flushOracle.length := by
  unfold Substream.poll_complete FramedSink.pollFlush at h
  cases hf : st.substream.flushOracle with
  | nil => rw [hf] at h; simp at h
  | cons r rs =>
      rw [hf] at h
      cases r with
      | ready =>
          simp at h
          subst h
          simp [hf]
      | pending => simp at h
      | ioError e => simp at h

/-- One `while let Some(frame) = buf.pop_front()` loop of
`Substream::send_data`, parameterized by the queue it drains.  The answer
`Ok(true)` is the early `return Ok(())` taken when a frame met
back-pressure and the flush is still pending; `Ok(false)` means the queue
was drained. -/
def Substream.sendLoop (st : Substream) (priority : Priority) :
    Substream × Except IoErrorKind Bool :=
  match hb : st.bufOf priority with
  | [] => (st, .ok false)
  | frame :: rest =>
      match h1 : (st.setBufOf priority rest).send_inner frame priority with
      | (st2, .error e) => (st2, .error e)
      | (st2, .ok false) => st2.sendLoop priority
      | (st2, .ok true) =>
          match h2 : st2.poll_complete with
          | (st3, .error e) => (st3, .error e)
          | (st3, .ok true) => (st3, .ok true)
          | (st3, .ok false) => st3.sendLoop priority
termination_by (st.bufOf priority).length + st.substream.readyOracle.length +
  st.substream.flushOracle.length
decreasing_by
  · obtain ⟨e1, e2, e3, e4⟩ := send_inner_ok_false_sizes _ _ _ _ h1
    have hbuf : st2.bufOf priority = rest := by
      cases priority <;>
        simp_all [Substream.bufOf, Substream.setBufOf, Priority.is_high]
    have hsub := setBufOf_substream st priority rest
    rw [hb, hbuf]
    rw [hsub] at e3 e4
    have e5 : st2.substream.flushOracle.length =
        st.substream.flushOracle.length := by rw [e4]
    simp only [List.length_cons]
    omega
  · obtain ⟨e1, e2, e3⟩ := send_inner_ok_true_sizes _ _ _ _ h1
    obtain ⟨f1, f2, f3, f4⟩ := poll_complete_ok_false_sizes _ _ h2
    have hbuf2 : st2.bufOf priority = frame :: rest := by
      rw [e1, bufOf_setBufOf]
    have hbuf3 : st3.bufOf priority = st2.bufOf priority := by
      cases priority <;> simp [Substream.bufOf, Priority.is_high, f1, f2]
    have hsub := setBufOf_substream st priority rest
    rw [hsub] at e2 e3
    have hflush : st3.substream.flushOracle.length <
        st.substream.flushOracle.length := by
      rw [← e3]; exact f4
    rw [hb, hbuf3, hbuf2, f3]
    simp only [List.length_cons]
    omega

/-- `Substream::send_data`: drain the high-priority queue, then the
normal queue, then flush; a back-pressured frame with a still-pending
flush takes the early `return Ok(())`. -/
def Substream.send_data (st : Substream) : Substream × Except IoErrorKind Unit :=
  match st.sendLoop .high with
  | (st1, .error e) => (st1, .error e)
  | (st1, .ok true) => (st1, .ok ())
  | (st1, .ok false) =>
      match st1.sendLoop .normal with
      | (st2, .error e) => (st2, .error e)
      | (st2, .ok true) => (st2, .ok ())
      | (st2, .ok false) =>
          match st2.poll_complete with
          | (st3, .error e) => (st3, .error e)
          | (st3, .ok _) => (st3, .ok ())

/-- `Substream::output`: drive the event buffer toward the session; a
disconnected session channel marks the substream dead. -/
def Substream.output (st : Substream) : Substream :=
  match st.event_sender.try_send with
  | (b, .disconnect) => { st with event_sender := b, dead := true }
  | (b, _) => { st with event_sender := b }

/-- `Substream::output_event`: push then drive. -/
def Substream.output_event (st : Substream) (event : ProtocolEvent) :
    Substream :=
  Substream.output { st with event_sender := st.event_sender.push event }

/-- First statement of `Substream::distribute_to_user_level`: drive the
service-level handler buffer. -/
def Substream.distributeService (st : Substream) : Substream :=
  match st.service_proto_sender with
  | some buffer =>
      match buffer.try_send with
      | (b, .disconnect) =>
          { st with service_proto_sender := some b, dead := true }
      | (b, _) => { st with service_proto_sender := some b }
  | none => st

/-- Second statement of `Substream::distribute_to_user_level`: drive the
session-level handler buffer. -/
def Substream.distributeSession (st : Substream) : Substream :=
  match st.session_proto_sender with
  | some buffer =>
      match buffer.try_send with
      | (b, .disconnect) =>
          { st with session_proto_sender := some b, dead := true }
      | (b, _) => { st with session_proto_sender := some b }
  | none => st

/-- `Substream::distribute_to_user_level`. -/
def Substream.distribute_to_user_level (st : Substream) : Substream :=
  let st := st.distributeService
  let st := st.distributeSession
  if st.dead then st.output else st

/-- `Substream::close_proto_stream`: close the command receiver, shut the
writer down (errors only traced), hand the user-handler queues plus the
terminal `Disconnected` / `Closed` events to detached tasks, and—when the
session is not yet closed—likewise detach the upward queue capped with a
`Close` event; when the session is already closed, just drive the upward
buffer once. -/
def Substream.close_proto_stream (st : Substream) : Substream :=
  let st := { st with receiverClosed := true }
  let st :=
    match st.service_proto_sender with
    | some buffer =>
        let (events, b) := buffer.take
        { st with
            service_proto_sender := some b
            spawnedService := st.spawnedService ++ events ++
              [ServiceProtocolEvent.disconnected st.contextId] }
    | none => st
  let st :=
    match st.session_proto_sender with
    | some buffer =>
        let (events, b) := buffer.take
        let events := events ++ [SessionProtocolEvent.closed]
        let events :=
          if st.contextClosed then events ++ [SessionProtocolEvent.disconnected]
          else events
        { st with
            session_proto_sender := some b
            spawnedSession := st.spawnedSession ++ events }
    | none => st
  if st.contextClosed then st.output
  else
    let (events, b) := st.event_sender.take
    { st with
        event_sender := b
        spawnedUpward := st.spawnedUpward ++ events ++
          [ProtocolEvent.close st.id st.proto_id] }

/-- `Substream::error_close`: mark dead, drop pending upward events unless
`keep_buffer`, surface an `Error` event and tear the stream down. -/
def Substream.error_close (st : Substream) (errorKind : IoErrorKind) :
    Substream :=
  let st := { st with dead := true }
  let st :=
    if st.keep_buffer then st
    else { st with event_sender := st.event_sender.clear }
  let st :=
    { st with event_sender :=
        st.event_sender.push (.error st.id st.proto_id errorKind) }
  st.close_proto_stream

/-- `Substream::handle_proto_event` for the commands a session sends. -/
def Substream.handle_proto_event (st : Substream) (event : ProtocolEvent)
    (priority : Priority) : Substream :=
  match event with
  | .message _ _ data =>
      let st := st.push_back priority data
      match st.send_data with
      | (st, .ok _) => st
      | (st, .error err) =>
          let st := st.output_event (.error st.id st.proto_id err)
          { st with dead := true }
  | .close _ _ => { st with write_buf := [], dead := true }
  | _ => st

/-- `Substream::recv_event`: commands from the session are not consumed
while the normal write queue is over `send_event_size`; a closed command
channel means the session is gone and marks the substream dead. -/
def Substream.recv_event (st : Substream) : Substream × PollState :=
  if st.dead then (st, .readyNone)
  else if st.write_buf.length > st.config.send_event_size then (st, .pending)
  else
    match st.event_receiver with
    | (priority, event) :: rest =>
        let st := { st with event_receiver := rest }
        (st.handle_proto_event event priority, .readySome)
    | [] =>
        if st.receiverDropped then ({ st with dead := true }, .readyNone)
        else (st, .pending)

/-- The tail of `Substream::recv_frame`'s complete-frame branch, after
`before_receive` ran: fan the data out to the configured user-handler
buffers, drive them, and—when the `event` flag is set—push a `Message`
event up to the session. -/
def Substream.recvFrameDeliver (st : Substream) (data : Bytes) :
    Substream × PollState :=
  let st :=
    match st.service_proto_sender with
    | some buffer =>
        let b2 := buffer.push (.received st.contextId data)
        { st with service_proto_sender := some b2 }
    | none => st
  let st :=
    match st.session_proto_sender with
    | some buffer =>
        let b2 := buffer.push (.received data)
        { st with session_proto_sender := some b2 }
    | none => st
  let st := st.distribute_to_user_level
  let st :=
    if st.event then st.output_event (.message st.id st.proto_id data) else st
  (st, .readySome)

/-- `Substream::recv_frame`: frames are not read while the upward event
buffer is over `recv_event_size`; codec errors of the fatal kinds silently
mark dead, all other kinds go through `error_close`.  `framesRead` counts
the complete frames obtained from the socket. -/
def Substream.recv_frame (st : Substream) : Substream × PollState :=
  if st.dead then (st, .readyNone)
  else if st.event_sender.lenQ > st.config.recv_event_size then (st, .pending)
  else
    match st.substream.pollNext with
    | (.frame data, sink) =>
        let st := { st with substream := sink, framesRead := st.framesRead + 1 }
        (match st.before_receive with
         | some function =>
             match function data with
             | .ok data2 => st.recvFrameDeliver data2
             | .error err => (st.error_close err, .readyNone)
         | none => st.recvFrameDeliver data)
    | (.closed, sink) => ({ st with substream := sink, dead := true }, .readyNone)
    | (.pending, sink) => ({ st with substream := sink }, .pending)
    | (.frameError err, sink) =>
        let st := { st with substream := sink }
        if isFatalKind err then ({ st with dead := true }, .readyNone)
        else (st.error_close err, .readyNone)

/-! ## SessionController (`src/context.rs`) -/

/-- Modelled from the spec: `buffer::PriorityBuffer` (`src/buffer.rs` is
not included under `src/`), the dual-queue variant of `Buffer` per §4.1;
only the enqueue side is exercised by `context.rs`. -/
structure PriorityBuffer (α : Type) where
  high : List α
  normal : List α
deriving DecidableEq, Repr

/-- `PriorityBuffer::push_high`. -/
def PriorityBuffer.push_high {α : Type} (b : PriorityBuffer α) (a : α) :
    PriorityBuffer α :=
  { b with high := b.high ++ [a] }

/-- `PriorityBuffer::push_normal`. -/
def PriorityBuffer.push_normal {α : Type} (b : PriorityBuffer α) (a : α) :
    PriorityBuffer α :=
  { b with normal := b.normal ++ [a] }

/-- The service-side handle of a session (`SessionController`): its
priority buffer of events bound for the session, and the shared
`SessionContext` atomics it increments (`inner.id`,
`inner.pending_data_size`). -/
structure SessionController where
  buffer : PriorityBuffer SessionEvent
  sessionId : Nat
  pendingDataSize : Nat
deriving DecidableEq, Repr

/-- `SessionContext::incr_pending_data_size` as seen from the controller. -/
def SessionController.incr_pending_data_size (c : SessionController)
    (data_size : Nat) : SessionController :=
  { c with pendingDataSize := usizeAdd c.pendingDataSize data_size }

/-- `SessionController::push`. -/
def SessionController.push (c : SessionController) (priority : Priority)
    (event : SessionEvent) : SessionController :=
  if priority.is_high then { c with buffer := c.buffer.push_high event }
  else { c with buffer := c.buffer.push_normal event }

/-- `SessionController::push_message`: increment `pending_data_size` by
the message's byte length, wrap the data in a `ProtocolMessage` event and
push it at the requested priority. -/
def SessionController.push_message (c : SessionController) (proto_id : Nat)
    (priority : Priority) (data : Bytes) : SessionController :=
  let c := c.incr_pending_data_size data.length
  let message_event := SessionEvent.protocolMessage c.sessionId proto_id data
  c.push priority message_event

/-! ## Derived observers used by the statements -/

/-- The host accumulator left by scanning `addr` starting from `acc1`. -/
def hostAfter (addr : Multiaddr) (acc1 : Option (List Nat)) :
    Option (List Nat) :=
  match lastHostBearing addr with
  | some p => some (protoWriteToBytes p)
  | none => acc1

/-- The events of a substream that are on their way up to the session:
still queued, already handed to the session channel, or moved onto a
detached teardown task. -/
def Substream.upwardEventView (st : Substream) : List ProtocolEvent :=
  st.event_sender.queue ++ st.event_sender.sentItems ++ st.spawnedUpward

/-- Iterate `recv_frame` (the per-poll read step of the substream's
`Stream` driver) `n` times. -/
def driveRecvFrame (st : Substream) : Nat → Substream
  | 0 => st
  | n + 1 => ((driveRecvFrame st n).recv_frame).1

/-- A concrete quiescent substream used to instantiate theorems: empty
buffers, empty oracles, alive, `event` flag set, no user-handler senders. -/
def exSubstream : Substream :=
  { substream :=
      { readyOracle := [], startSendOracle := [], flushOracle := []
        nextOracle := [], sent := [] }
    id := 1
    proto_id := 1
    contextId := 1
    contextClosed := false
    pendingDataSize := 0
    event := true
    config := {}
    high_write_buf := []
    write_buf := []
    dead := false
    keep_buffer := false
    event_sender := { queue := [], readyOracle := [], sentItems := [] }
    event_receiver := []
    receiverDropped := false
    receiverClosed := false
    service_proto_sender := none
    session_proto_sender := none
    before_receive := none
    spawnedUpward := []
    spawnedService := []
    spawnedSession := []
    framesRead := 0 }

/-- Concrete substream whose next stream answer is a non-fatal codec
error. -/
def exC4st : Substream :=
  { exSubstream with
      substream :=
        { exSubstream.substream with
            nextOracle := [.frameError .invalidData] } }

/-- Concrete substream whose normal write queue exceeds its
`send_event_size` cap, with a high-priority `Close` waiting in the
command channel. -/
def exC9st : Substream :=
  { exSubstream with
      write_buf := [[1], [2]]
      config := { sendEventSize := 1, recvEventSize := 512 }
      event_receiver := [(Priority.high, ProtocolEvent.close 1 1)] }

/-- Concrete substream with one sink-readiness grant and a pending frame
counter of 10. -/
def exC2st : Substream :=
  { exSubstream with
      substream := { exSubstream.substream with readyOracle := [.ready] }
      pendingDataSize := 10 }

/-- Concrete substream for the send-priority theorem: one high and one
normal frame queued, sink ready twice then flush-ready. -/
def exC1st : Substream :=
  { exSubstream with
      high_write_buf := [[1, 1]]
      write_buf := [[2, 2]]
      substream :=
        { exSubstream.substream with
            readyOracle := [.ready, .ready]
            flushOracle := [.ready] } }

/-- Invariant driven through repeated `recv_frame` polls when the session
channel never accepts an event (empty readiness oracle) and the `event`
flag is set: while alive, every frame read so far sits in the upward
queue, so the reads are bounded by the queue cap plus one. -/
def RecvInv (cap : Nat) (st : Substream) : Prop :=
  st.config.recvEventSize = cap ∧
  st.framesRead ≤ cap + 1 ∧
  (st.dead = false →
    st.event_sender.queue.length = st.framesRead ∧
    st.event_sender.readyOracle = [] ∧
    st.event = true ∧
    st.before_receive = none ∧
    st.service_proto_sender = none ∧
    st.session_proto_sender = none)

/-- Concrete substream whose upward queue already exceeds its
`recv_event_size` cap. -/
def exC3st : Substream :=
  { exSubstream with
      event_sender :=
        { queue := [ProtocolEvent.timeoutCheck], readyOracle := []
          sentItems := [] }
      config := { sendEventSize := 512, recvEventSize := 0 } }

/-- Canonical representation of an `AddrKnown` state: the `BTreeMap` list
`L` (ascending insertion times, pairwise-distinct addresses) determines
the other two indexes up to permutation. -/
def addrKnownRep (ak : AddrKnown) (L : List (Nat × ConnectableAddr)) :
    Prop :=
  ak.time_addrs = L ∧
  List.Pairwise (fun a b => a.1 < b.1) L ∧
  (L.map Prod.snd).Nodup ∧
  ak.addr_times.Perm (L.map (fun p => (p.2, p.1))) ∧
  ak.addrs.Perm (L.map Prod.snd)

/-- The canonical list after one insert: append the new binding; on
overflow drop the head (the smallest time). -/
def evolveL (m : Nat) (L : List (Nat × ConnectableAddr)) (now : Nat)
    (key : ConnectableAddr) : List (Nat × ConnectableAddr) :=
  if L.length + 1 > m then (L ++ [(now, key)]).tail else L ++ [(now, key)]

/-- Run a list of timestamped inserts. -/
def applyInserts (ak : AddrKnown) (ps : List (Nat × ConnectableAddr)) :
    AddrKnown :=
  ps.foldl (fun ak p => ak.insert p.1 p.2) ak

/-- The last `n` elements of a list. -/
def lastN (n : Nat) {α : Type} (l : List α) : List α :=
  l.drop (l.length - n)

/-- Runs in which every inserted address is absent at its insert (it may
have been removed or evicted earlier) and insert timestamps exceed all
timestamps currently in the table — how successive `Instant::now()` calls
behave. -/
def freshRun : AddrKnown → List AddrOp → Prop
  | _, [] => True
  | ak, .insert now key :: rest =>
      ¬ ak.containsAddr key ∧ (∀ p ∈ ak.time_addrs, p.1 < now) ∧
      freshRun (ak.insert now key) rest
  | ak, .remove l :: rest => freshRun (ak.removeAddrs l) rest

instance freshRunDecidable (ak : AddrKnown) (ops : List AddrOp) :
    Decidable (freshRun ak ops) := by
  induction ops generalizing ak with
  | nil => exact isTrue trivial
  | cons op rest ih =>
      cases op with
      | insert now key =>
          have : Decidable (freshRun (ak.insert now key) rest) :=
            ih (ak.insert now key)
          unfold freshRun
          exact instDecidableAnd
      | remove l =>
          have : Decidable (freshRun (ak.removeAddrs l) rest) :=
            ih (ak.removeAddrs l)
          unfold freshRun
          exact this

/-- The 5001 distinct addresses of scenario S5, timestamped 0..5000. -/
def bigInsertList : List (Nat × ConnectableAddr) :=
  (List.range 5001).map (fun i => (i, { host := [i], port := 0 }))

/-! ## General lemmas about the embedding -/

theorem trySendLoop_append {α : Type} (q : List α) :
    ∀ (o : List SendReady) (s : List α),
      (trySendLoop q o s).2.2.1 ++ (trySendLoop q o s).1 = s ++ q := by
  induction q with
  | nil => intro o s; simp [trySendLoop]
  | cons x xs ih =>
      intro o s
      match o with
      | [] => simp [trySendLoop]
      | .ready :: rs =>
          rw [show trySendLoop (x :: xs) (SendReady.ready :: rs) s =
            trySendLoop xs rs (s ++ [x]) from rfl, ih rs (s ++ [x])]
          simp
      | .notReady :: rs => simp [trySendLoop]
      | .disconnected :: rs => simp [trySendLoop]

theorem try_send_view {α : Type} (b : Buffer α) :
    ((b.try_send).1).sentItems ++ ((b.try_send).1).queue =
      b.sentItems ++ b.queue := by
  have h := trySendLoop_append b.queue b.readyOracle b.sentItems
  unfold Buffer.try_send
  rcases he : trySendLoop b.queue b.readyOracle b.sentItems with ⟨q', o', s', r⟩
  rw [he] at h
  simpa using h

theorem output_fields (st : Substream) :
    (st.output).event_sender = (st.event_sender.try_send).1 ∧
    (st.output).spawnedUpward = st.spawnedUpward ∧
    (st.output).pendingDataSize = st.pendingDataSize ∧
    (st.output).id = st.id ∧ (st.output).proto_id = st.proto_id ∧
    (st.dead = true → (st.output).dead = true) := by
  unfold Substream.output
  obtain ⟨b, r⟩ : _ × _ := st.event_sender.try_send
  cases r <;> simp

theorem output_mem_upward (st : Substream) (ev : ProtocolEvent)
    (h : ev ∈ st.upwardEventView) : ev ∈ (st.output).upwardEventView := by
  obtain ⟨h1, h2, -, -, -, -⟩ := output_fields st
  unfold Substream.upwardEventView at h ⊢
  rw [h1, h2]
  have hv := try_send_view st.event_sender
  simp only [List.mem_append] at h ⊢
  rcases h with (h | h) | h
  · have : ev ∈ ((st.event_sender.try_send).1).sentItems ++
        ((st.event_sender.try_send).1).queue := by
      rw [hv]; simp [h]
    simp only [List.mem_append] at this
    tauto
  · have : ev ∈ ((st.event_sender.try_send).1).sentItems ++
        ((st.event_sender.try_send).1).queue := by
      rw [hv]; simp [h]
    simp only [List.mem_append] at this
    tauto
  · tauto

theorem close_proto_stream_dead (st : Substream) (hd : st.dead = true) :
    (st.close_proto_stream).dead = true := by
  unfold Substream.close_proto_stream
  cases hsv : st.service_proto_sender <;>
    cases hss : st.session_proto_sender <;>
    cases hcl : st.contextClosed <;>
    simp [hsv, hss, hcl, Buffer.take, hd] <;>
    exact (output_fields _).2.2.2.2.2 (by simp [hd])

theorem close_proto_stream_pending (st : Substream) :
    (st.close_proto_stream).pendingDataSize = st.pendingDataSize := by
  unfold Substream.close_proto_stream
  cases hsv : st.service_proto_sender <;>
    cases hss : st.session_proto_sender <;>
    cases hcl : st.contextClosed <;>
    simp [hsv, hss, hcl, Buffer.take] <;>
    exact (output_fields _).2.2.1.trans (by simp)

theorem close_proto_stream_mem (st : Substream) (ev : ProtocolEvent)
    (h : ev ∈ st.upwardEventView) :
    ev ∈ (st.close_proto_stream).upwardEventView := by
  unfold Substream.close_proto_stream
  cases hsv : st.service_proto_sender <;>
    cases hss : st.session_proto_sender <;>
    cases hcl : st.contextClosed <;>
    simp [hsv, hss, hcl, Buffer.take] <;>
    first
    | (apply output_mem_upward
       simp only [Substream.upwardEventView] at h ⊢
       simpa using h)
    | (simp only [Substream.upwardEventView] at h ⊢
       simp only [List.mem_append] at h ⊢
       tauto)

theorem mapInsert_append {K V : Type} [DecidableEq K] (l : List (K × V))
    (k : K) (v : V) (h : k ∉ l.map Prod.fst) :
    mapInsert l k v = l ++ [(k, v)] := by
  induction l with
  | nil => rfl
  | cons p rest ih =>
      obtain ⟨k', v'⟩ := p
      simp only [List.map_cons, List.mem_cons] at h
      push_neg at h
      simp [mapInsert, h.1, ih h.2]

theorem btreeInsert_append {V : Type} (L : List (Nat × V)) (now : Nat)
    (key : V) (h : ∀ p ∈ L, p.1 < now) :
    btreeInsert L now key = L ++ [(now, key)] := by
  induction L with
  | nil => rfl
  | cons p rest ih =>
      obtain ⟨t, v⟩ := p
      have ht : t < now := h (t, v) (by simp)
      have h2 : ∀ q ∈ rest, q.1 < now := fun q hq => h q (by simp [hq])
      simp [btreeInsert, Nat.lt_asymm ht, (Nat.ne_of_lt ht).symm, ih h2]

theorem mapLookup_eq_none_iff {K V : Type} [DecidableEq K]
    (l : List (K × V)) (k : K) :
    mapLookup l k = none ↔ k ∉ l.map Prod.fst := by
  induction l with
  | nil => simp [mapLookup]
  | cons p rest ih =>
      obtain ⟨k', v'⟩ := p
      by_cases hk : k' = k
      · subst hk
        simp [mapLookup]
      · simp [mapLookup, hk, ih, Ne.symm hk]

theorem mapLookup_some_mem {K V : Type} [DecidableEq K] (l : List (K × V))
    (k : K) (v : V) (h : mapLookup l k = some v) : (k, v) ∈ l := by
  induction l with
  | nil => simp [mapLookup] at h
  | cons p rest ih =>
      obtain ⟨k', v'⟩ := p
      by_cases hk : k' = k
      · subst hk
        simp [mapLookup] at h
        simp [h]
      · simp [mapLookup, hk] at h
        simp [ih h]

theorem mem_mapLookup {K V : Type} [DecidableEq K] (l : List (K × V))
    (k : K) (v : V) (hnd : (l.map Prod.fst).Nodup) (h : (k, v) ∈ l) :
    mapLookup l k = some v := by
  induction l with
  | nil => simp at h
  | cons p rest ih =>
      obtain ⟨k', v'⟩ := p
      simp only [List.map_cons, List.nodup_cons] at hnd
      rcases List.mem_cons.mp h with heq | hmem
      · injection heq with h1 h2
        subst h1
        subst h2
        simp [mapLookup]
      · have hne : k' ≠ k := by
          intro hcontra
          subst hcontra
          exact hnd.1 (List.mem_map.mpr ⟨(k', v), hmem, rfl⟩)
        simp [mapLookup, hne, ih hnd.2 hmem]

theorem mapLookup_perm {K V : Type} [DecidableEq K] (l l' : List (K × V))
    (k : K) (hp : l.Perm l') (hnd : (l.map Prod.fst).Nodup) :
    mapLookup l k = mapLookup l' k := by
  have hnd' : (l'.map Prod.fst).Nodup := ((hp.map Prod.fst).nodup_iff).mp hnd
  cases hl' : mapLookup l' k with
  | some v =>
      exact mem_mapLookup l k v hnd (hp.mem_iff.mpr (mapLookup_some_mem _ _ _ hl'))
  | none =>
      rw [mapLookup_eq_none_iff] at hl' ⊢
      intro hc
      exact hl' ((hp.map Prod.fst).mem_iff.mp hc)

theorem nodup_keys_eq {K V : Type} [DecidableEq K] (l : List (K × V))
    (k : K) (v w : V) (hnd : (l.map Prod.fst).Nodup) (h1 : (k, v) ∈ l)
    (h2 : (k, w) ∈ l) : v = w := by
  have e1 := mem_mapLookup l k v hnd h1
  have e2 := mem_mapLookup l k w hnd h2
  rw [e1] at e2
  exact Option.some_inj.mp e2

theorem filter_eq_self_of_not_mem {α : Type} [DecidableEq α] (l : List α)
    (a : α) (h : a ∉ l) : l.filter (fun x => x ≠ a) = l := by
  induction l with
  | nil => rfl
  | cons x xs ih =>
      simp only [List.mem_cons] at h
      push_neg at h
      simp [List.filter_cons, h.1, Ne.symm h.1, ih h.2]
      intro y hy hc
      exact h.2 (hc ▸ hy)

theorem filter_fst_eq_self {K V : Type} [DecidableEq K] (l : List (K × V))
    (k : K) (h : k ∉ l.map Prod.fst) :
    l.filter (fun p => p.1 ≠ k) = l := by
  induction l with
  | nil => rfl
  | cons q qs ih =>
      obtain ⟨kq, vq⟩ := q
      simp only [List.map_cons, List.mem_cons] at h
      push_neg at h
      simp [List.filter_cons, Ne.symm h.1, ih h.2]
      intro a b hab hc
      exact h.2 (hc ▸ List.mem_map.mpr ⟨(a, b), hab, rfl⟩)

theorem mapRemove_cons_head {K V : Type} [DecidableEq K] (k0 : K) (v0 : V)
    (tl : List (K × V)) (h : k0 ∉ tl.map Prod.fst) :
    mapRemove ((k0, v0) :: tl) k0 = tl := by
  unfold mapRemove
  rw [List.filter_cons]
  have h2 := filter_fst_eq_self tl k0 h
  simp only [ne_eq] at h2 ⊢
  simp [h2]
  intro a b hab hc
  exact h (hc ▸ List.mem_map.mpr ⟨(a, b), hab, rfl⟩)

theorem filter_map_swap (L : List (Nat × ConnectableAddr))
    (p : ConnectableAddr × Nat → Bool) :
    (L.map (fun q => (q.2, q.1))).filter p =
      (L.filter (fun q => p (q.2, q.1))).map (fun q => (q.2, q.1)) := by
  induction L with
  | nil => rfl
  | cons q qs ih =>
      obtain ⟨t, a⟩ := q
      by_cases hp : p (a, t) <;> simp [List.filter_cons, hp, ih]

theorem filter_map_snd (L : List (Nat × ConnectableAddr))
    (p : ConnectableAddr → Bool) :
    (L.map Prod.snd).filter p = (L.filter (fun q => p q.2)).map Prod.snd := by
  induction L with
  | nil => rfl
  | cons q qs ih =>
      obtain ⟨t, a⟩ := q
      by_cases hp : p a <;> simp [List.filter_cons, hp, ih]

theorem pairwise_lt_keys_nodup {V : Type} (L : List (Nat × V))
    (h : List.Pairwise (fun a b => a.1 < b.1) L) :
    (L.map Prod.fst).Nodup :=
  List.Pairwise.map _ (fun _ _ hab => Nat.ne_of_lt hab) h

theorem rep_empty (m : Nat) : addrKnownRep (AddrKnown.new m) [] := by
  refine ⟨rfl, by simp, by simp, by simp [AddrKnown.new], by simp [AddrKnown.new]⟩

theorem rep_coherent (ak : AddrKnown) (L : List (Nat × ConnectableAddr))
    (h : addrKnownRep ak L) : ak.coherent := by
  obtain ⟨hT, hPW, hND, hAT, hAD⟩ := h
  have hlenT : ak.time_addrs.length = L.length := by rw [hT]
  have hlenA : ak.addrs.length = L.length := by
    rw [hAD.length_eq, List.length_map]
  have hlenM : ak.addr_times.length = L.length := by
    rw [hAT.length_eq, List.length_map]
  have hmemAT : ∀ a, a ∈ ak.addr_times.map Prod.fst ↔ a ∈ L.map Prod.snd := by
    intro a
    have hp : (ak.addr_times.map Prod.fst).Perm (L.map Prod.snd) := by
      have := hAT.map Prod.fst
      simpa [Function.comp] using this
    exact hp.mem_iff
  refine ⟨by omega, by omega, ?_, ?_, ?_, ?_⟩
  · intro a ha
    exact (hmemAT a).mpr (hAD.mem_iff.mp ha)
  · intro a ha
    exact hAD.mem_iff.mpr ((hmemAT a).mp ha)
  · intro a ha
    rw [hT]
    exact hAD.mem_iff.mp ha
  · intro a ha
    rw [hT] at ha
    exact hAD.mem_iff.mpr ha

theorem rep_insert_eq (ak : AddrKnown) (L : List (Nat × ConnectableAddr))
    (now : Nat) (key : ConnectableAddr) (h : addrKnownRep ak L)
    (hfresh : key ∉ L.map Prod.snd) (hmono : ∀ p ∈ L, p.1 < now) :
    addrKnownRep (ak.insert now key) (evolveL ak.max_known L now key) := by
  obtain ⟨hT, hPW, hND, hAT, hAD⟩ := h
  have hkey_not : key ∉ ak.addrs := fun hc => hfresh (hAD.mem_iff.mp hc)
  have haddrs : setInsert ak.addrs key = key :: ak.addrs := by
    simp [setInsert, hkey_not]
  have hta : btreeInsert ak.time_addrs now key = L ++ [(now, key)] := by
    rw [hT]
    exact btreeInsert_append L now key hmono
  have hkeysAT : (ak.addr_times.map Prod.fst).Perm (L.map Prod.snd) := by
    have := hAT.map Prod.fst
    simpa [Function.comp] using this
  have hkeyAT_not : key ∉ ak.addr_times.map Prod.fst :=
    fun hc => hfresh (hkeysAT.mem_iff.mp hc)
  have hat : mapInsert ak.addr_times key now = ak.addr_times ++ [(key, now)] :=
    mapInsert_append _ _ _ hkeyAT_not
  have hlen : (key :: ak.addrs).length = L.length + 1 := by
    simp [hAD.length_eq]
  have hPWM : List.Pairwise (fun a b => a.1 < b.1) (L ++ [(now, key)]) := by
    rw [List.pairwise_append]
    exact ⟨hPW, by simp, by
      intro a ha b hb
      simp at hb
      rw [hb]
      exact hmono a ha⟩
  have hNDM : ((L ++ [(now, key)]).map Prod.snd).Nodup := by
    rw [List.map_append]
    refine List.Nodup.append hND (by simp) ?_
    intro a ha hb
    simp at hb
    rw [hb] at ha
    exact hfresh ha
  have hATM : (mapInsert ak.addr_times key now).Perm
      ((L ++ [(now, key)]).map (fun p => (p.2, p.1))) := by
    rw [hat, List.map_append]
    exact hAT.append_right [(key, now)]
  have hADM : (setInsert ak.addrs key).Perm
      ((L ++ [(now, key)]).map Prod.snd) := by
    rw [haddrs, List.map_append]
    exact (hAD.cons key).trans (List.perm_append_singleton key _).symm
  rw [haddrs] at hADM
  rw [hat] at hATM
  unfold AddrKnown.insert
  unfold evolveL
  simp only [haddrs, hta, hat, hlen]
  by_cases hover : L.length + 1 > ak.max_known
  · simp only [if_pos hover]
    cases hM : L ++ [(now, key)] with
    | nil => simp at hM
    | cons c tl =>
        obtain ⟨t0, k0⟩ := c
        rw [hM] at hPWM hNDM hATM hADM
        simp only [List.head?_cons, List.tail_cons]
        have hpw := List.pairwise_cons.mp hPWM
        have hnd : k0 ∉ tl.map Prod.snd ∧ (tl.map Prod.snd).Nodup := by
          simpa using hNDM
        have ht0 : t0 ∉ tl.map Prod.fst := by
          intro hc
          obtain ⟨p, hp, he⟩ := List.mem_map.mp hc
          have := hpw.1 p hp
          omega
        refine ⟨?_, hpw.2, hnd.2, ?_, ?_⟩
        · exact mapRemove_cons_head t0 k0 tl ht0
        · have hfil := hATM.filter (fun q => q.1 ≠ k0)
          refine hfil.trans ?_
          have : ((t0, k0) :: tl).map (fun p => (p.2, p.1)) =
              (k0, t0) :: tl.map (fun p => (p.2, p.1)) := by simp
          rw [this]
          have hk0f : k0 ∉ (tl.map (fun p => (p.2, p.1))).map Prod.fst := by
            simpa [Function.comp] using hnd.1
          rw [List.filter_cons]
          simp
          have hfix := filter_fst_eq_self (tl.map (fun p => (p.2, p.1))) k0 hk0f
          simp only [ne_eq, decide_not] at hfix ⊢
          rw [hfix]
        · have hfil := hADM.filter (fun x => x ≠ k0)
          refine hfil.trans ?_
          have : ((t0, k0) :: tl).map Prod.snd = k0 :: tl.map Prod.snd := by
            simp
          rw [this]
          rw [List.filter_cons]
          simp
          have hfix := filter_eq_self_of_not_mem (tl.map Prod.snd) k0 hnd.1
          simp only [ne_eq, decide_not] at hfix ⊢
          rw [hfix]
  · simp only [if_neg hover]
    exact ⟨rfl, hPWM, hNDM, hATM, hADM⟩

theorem filter_snd_eq_self (L : List (Nat × ConnectableAddr))
    (a : ConnectableAddr) (h : a ∉ L.map Prod.snd) :
    L.filter (fun p => p.2 ≠ a) = L := by
  induction L with
  | nil => rfl
  | cons q qs ih =>
      obtain ⟨tq, aq⟩ := q
      simp only [List.map_cons, List.mem_cons] at h
      push_neg at h
      simp [List.filter_cons, Ne.symm h.1, ih h.2]
      intro x y hxy hc
      exact h.2 (hc ▸ List.mem_map.mpr ⟨(x, y), hxy, rfl⟩)

theorem rep_removeOne (ak : AddrKnown) (L : List (Nat × ConnectableAddr))
    (a : ConnectableAddr) (h : addrKnownRep ak L) :
    addrKnownRep (ak.removeOne a) (L.filter (fun p => p.2 ≠ a)) := by
  obtain ⟨hT, hPW, hND, hAT, hAD⟩ := h
  have hkeysAT : (ak.addr_times.map Prod.fst).Perm (L.map Prod.snd) := by
    have := hAT.map Prod.fst
    simpa [Function.comp] using this
  have hknd : (ak.addr_times.map Prod.fst).Nodup :=
    hkeysAT.nodup_iff.mpr hND
  have hkeysL : (L.map Prod.fst).Nodup := pairwise_lt_keys_nodup L hPW
  have hkeysSwap : ((L.map (fun p => (p.2, p.1))).map Prod.fst).Nodup := by
    simpa [Function.comp] using hND
  by_cases hmem : a ∈ L.map Prod.snd
  · obtain ⟨p, hp, hpa⟩ := List.mem_map.mp hmem
    obtain ⟨t, a2⟩ := p
    have ha2 : a2 = a := hpa
    rw [ha2] at hp
    have hswap : (a, t) ∈ ak.addr_times :=
      hAT.mem_iff.mpr (List.mem_map.mpr ⟨(t, a), hp, rfl⟩)
    have hlook : mapLookup ak.addr_times a = some t :=
      mem_mapLookup _ _ _ hknd hswap
    have hcong : L.filter (fun p => p.1 ≠ t) = L.filter (fun p => p.2 ≠ a) := by
      apply List.filter_congr
      intro q hq
      obtain ⟨tq, aq⟩ := q
      have hiff : (tq = t) ↔ (aq = a) := by
        constructor
        · intro he
          subst he
          exact nodup_keys_eq L tq aq a hkeysL hq hp
        · intro he
          subst he
          exact nodup_keys_eq (L.map (fun p => (p.2, p.1))) aq tq t hkeysSwap
            (List.mem_map.mpr ⟨(tq, aq), hq, rfl⟩)
            (List.mem_map.mpr ⟨(t, aq), hp, rfl⟩)
      have hc : decide (¬ tq = t) = decide (¬ aq = a) :=
        decide_eq_decide.mpr (not_congr hiff)
      simpa using hc
    unfold AddrKnown.removeOne
    rw [hlook]
    refine ⟨?_, ?_, ?_, ?_, ?_⟩
    · rw [hT]
      unfold mapRemove
      exact hcong
    · exact hPW.sublist (List.filter_sublist _)
    · exact hND.sublist ((List.filter_sublist _).map _)
    · unfold mapRemove
      refine (hAT.filter _).trans ?_
      rw [filter_map_swap L (fun q => q.1 ≠ a)]
    · unfold setRemove
      refine (hAD.filter _).trans ?_
      rw [filter_map_snd L (fun x => x ≠ a)]
  · have hnone : mapLookup ak.addr_times a = none := by
      rw [mapLookup_eq_none_iff]
      intro hc
      exact hmem (hkeysAT.mem_iff.mp hc)
    have hself : L.filter (fun p => p.2 ≠ a) = L := filter_snd_eq_self L a hmem
    have hanot : a ∉ ak.addrs := fun hc => hmem (hAD.mem_iff.mp hc)
    unfold AddrKnown.removeOne
    rw [hnone, hself]
    refine ⟨hT, hPW, hND, hAT, ?_⟩
    unfold setRemove
    rw [filter_eq_self_of_not_mem _ _ hanot]
    exact hAD

theorem foldl_connectableAddrStep (addr : Multiaddr) :
    ∀ acc : Option (List Nat) × Nat,
      addr.foldl connectableAddrStep acc =
        (hostAfter addr acc.1, lastTcpPort addr acc.2) := by
  induction addr with
  | nil => intro acc; simp [hostAfter, lastHostBearing, lastTcpPort]
  | cons p rest ih =>
      intro acc
      rw [List.foldl_cons, ih]
      cases p <;>
        simp only [connectableAddrStep, hostAfter, lastHostBearing,
          lastTcpPort, isHostBearing, List.foldl_cons] <;>
        cases h : lastHostBearing rest <;> simp [h]

theorem connectableAddrFromMultiaddr_eq (addr : Multiaddr) :
    connectableAddrFromMultiaddr addr =
      match lastHostBearing addr with
      | some p => some { host := protoWriteToBytes p, port := lastTcpPort addr 0 }
      | none => none := by
  unfold connectableAddrFromMultiaddr
  rw [foldl_connectableAddrStep addr (none, 0)]
  cases h : lastHostBearing addr <;> simp [hostAfter, h]

theorem lastHostBearing_isSome (addr : Multiaddr)
    (h : ∃ p ∈ addr, isHostBearing p = true) :
    (lastHostBearing addr).isSome := by
  induction addr with
  | nil => simp at h
  | cons q rest ih =>
      obtain ⟨p, hp, hb⟩ := h
      rcases List.mem_cons.mp hp with rfl | hmem
      · unfold lastHostBearing
        cases hrest : lastHostBearing rest <;> simp [hb]
      · have := ih ⟨p, hmem, hb⟩
        unfold lastHostBearing
        cases hrest : lastHostBearing rest <;> simp_all

theorem lastHostBearing_isHostBearing (addr : Multiaddr) (p : Protocol)
    (h : lastHostBearing addr = some p) : isHostBearing p = true := by
  induction addr with
  | nil => simp [lastHostBearing] at h
  | cons q rest ih =>
      unfold lastHostBearing at h
      cases hrest : lastHostBearing rest with
      | some q' =>
          rw [hrest] at h
          exact ih (by rw [hrest, Option.some_inj.mp h])
      | none =>
          rw [hrest] at h
          by_cases hq : isHostBearing q = true
          · simp [hq] at h
            subst h
            exact hq
          · simp [Bool.not_eq_true] at hq
            simp [hq] at h

theorem error_close_dead (st : Substream) (e : IoErrorKind) :
    (st.error_close e).dead = true := by
  unfold Substream.error_close
  apply close_proto_stream_dead
  cases hk : st.keep_buffer <;> simp [hk, Buffer.push, Buffer.clear]

theorem error_close_pending (st : Substream) (e : IoErrorKind) :
    (st.error_close e).pendingDataSize = st.pendingDataSize := by
  unfold Substream.error_close
  rw [close_proto_stream_pending]
  cases hk : st.keep_buffer <;> simp [hk, Buffer.push, Buffer.clear]

theorem error_close_mem (st : Substream) (e : IoErrorKind) :
    ProtocolEvent.error st.id st.proto_id e ∈
      (st.error_close e).upwardEventView := by
  unfold Substream.error_close
  apply close_proto_stream_mem
  cases hk : st.keep_buffer <;>
    simp [hk, Buffer.push, Buffer.clear, Substream.upwardEventView]

theorem output_event_pending (st : Substream) (ev : ProtocolEvent) :
    (st.output_event ev).pendingDataSize = st.pendingDataSize := by
  unfold Substream.output_event
  exact (output_fields _).2.2.1.trans (by simp)

theorem poll_complete_pending (st : Substream) :
    ((st.poll_complete).1).pendingDataSize = st.pendingDataSize := by
  unfold Substream.poll_complete FramedSink.pollFlush
  cases hf : st.substream.flushOracle with
  | nil => rfl
  | cons r rs => cases r <;> rfl

theorem distributeService_pending (st : Substream) :
    (st.distributeService).pendingDataSize = st.pendingDataSize := by
  unfold Substream.distributeService
  repeat' split
  all_goals rfl

theorem distributeSession_pending (st : Substream) :
    (st.distributeSession).pendingDataSize = st.pendingDataSize := by
  unfold Substream.distributeSession
  repeat' split
  all_goals rfl

theorem distribute_pending (st : Substream) :
    (st.distribute_to_user_level).pendingDataSize = st.pendingDataSize := by
  unfold Substream.distribute_to_user_level
  dsimp only
  split
  · rw [(output_fields _).2.2.1, distributeSession_pending,
      distributeService_pending]
  · rw [distributeSession_pending, distributeService_pending]

theorem recvFrameDeliver_pending (st : Substream) (data : Bytes) :
    ((st.recvFrameDeliver data).1).pendingDataSize = st.pendingDataSize := by
  unfold Substream.recvFrameDeliver
  cases hsv : st.service_proto_sender <;>
    cases hss : st.session_proto_sender <;>
    simp only [hsv, hss] <;>
    (try split) <;>
    simp [distribute_pending, output_event_pending,
      (output_fields _).2.2.1]

theorem recv_frame_pending_preserved (st : Substream) :
    ((st.recv_frame).1).pendingDataSize = st.pendingDataSize := by
  unfold Substream.recv_frame FramedSink.pollNext
  cases hd : st.dead
  · by_cases hq : st.event_sender.lenQ > st.config.recv_event_size
    case pos => simp [hq]
    case neg =>
        simp only [Bool.false_eq_true, if_false, if_neg hq]
        cases hn : st.substream.nextOracle with
        | nil => simp [hn]
        | cons r rest =>
            cases r with
            | frame data =>
                simp only [hn]
                cases hbr : st.before_receive with
                | none => simp [hbr, recvFrameDeliver_pending]
                | some f =>
                    cases hfr : f data with
                    | ok d2 => simp [hbr, hfr, recvFrameDeliver_pending]
                    | error e => simp [hbr, hfr, error_close_pending]
            | closed => simp [hn]
            | pending => simp [hn]
            | frameError e =>
                cases hfk : isFatalKind e <;>
                  simp [hn, hfk, error_close_pending]
  · simp [hd]

theorem push_message_spec (c : SessionController) (proto_id : Nat)
    (pr : Priority) (data : Bytes) :
    (c.push_message proto_id pr data).pendingDataSize =
      usizeAdd c.pendingDataSize data.length ∧
    (pr = .high →
      (c.push_message proto_id pr data).buffer.high =
        c.buffer.high ++
          [SessionEvent.protocolMessage c.sessionId proto_id data] ∧
      (c.push_message proto_id pr data).buffer.normal = c.buffer.normal) ∧
    (pr = .normal →
      (c.push_message proto_id pr data).buffer.normal =
        c.buffer.normal ++
          [SessionEvent.protocolMessage c.sessionId proto_id data] ∧
      (c.push_message proto_id pr data).buffer.high = c.buffer.high) := by
  cases pr <;>
    simp [SessionController.push_message, SessionController.push,
      SessionController.incr_pending_data_size, Priority.is_high,
      PriorityBuffer.push_high, PriorityBuffer.push_normal]

theorem send_inner_counter (st : Substream) (f : Bytes) (p : Priority)
    (st' : Substream) (r : Except IoErrorKind Bool)
    (h : st.send_inner f p = (st', r)) :
    (r = .ok false →
      st'.pendingDataSize = usizeSub st.pendingDataSize f.length ∧
      st'.substream.sent = st.substream.sent ++ [f]) ∧
    (r ≠ .ok false →
      st'.pendingDataSize = st.pendingDataSize ∧
      st'.substream.sent = st.substream.sent) := by
  unfold Substream.send_inner FramedSink.pollReady at h
  cases hr : st.substream.readyOracle with
  | nil =>
      rw [hr] at h
      simp at h
      obtain ⟨h1, h2⟩ := h
      subst h1 h2
      refine ⟨by simp, fun _ => ?_⟩
      cases p <;>
        simp [Substream.push_front, Priority.is_high]
  | cons rr rs =>
      rw [hr] at h
      cases rr with
      | ready =>
          unfold FramedSink.startSend at h
          cases hs : st.substream.startSendOracle with
          | nil =>
              simp [hs, Substream.decr_pending_data_size] at h
              obtain ⟨h1, h2⟩ := h
              subst h1 h2
              exact ⟨fun _ => by simp, by simp⟩
          | cons o os =>
              cases o with
              | none =>
                  simp [hs, Substream.decr_pending_data_size] at h
                  obtain ⟨h1, h2⟩ := h
                  subst h1 h2
                  exact ⟨fun _ => by simp, by simp⟩
              | some e =>
                  simp [hs] at h
                  obtain ⟨h1, h2⟩ := h
                  subst h1 h2
                  exact ⟨by simp, fun _ => by simp⟩
      | pending =>
          simp at h
          obtain ⟨h1, h2⟩ := h
          subst h1 h2
          refine ⟨by simp, fun _ => ?_⟩
          cases p <;>
            simp [Substream.push_front, Priority.is_high]
      | ioError e =>
          simp at h
          obtain ⟨h1, h2⟩ := h
          subst h1 h2
          exact ⟨by simp, fun _ => by simp⟩

theorem setBufOf_bufOf_other (st : Substream) (p q : Priority)
    (l : List Bytes) (hq : q ≠ p) :
    (st.setBufOf p l).bufOf q = st.bufOf q := by
  cases p <;> cases q <;>
    simp_all [Substream.setBufOf, Substream.bufOf, Priority.is_high]

theorem bufOf_push_front_other (st : Substream) (p q : Priority) (f : Bytes)
    (hq : q ≠ p) : (st.push_front p f).bufOf q = st.bufOf q := by
  cases p <;> cases q <;>
    simp_all [Substream.push_front, Substream.bufOf, Priority.is_high]

theorem pollReady_sent (s : FramedSink) : ((s.pollReady).2).sent = s.sent := by
  unfold FramedSink.pollReady
  cases s.readyOracle <;> simp

theorem send_inner_ok_true_parts (st : Substream) (f : Bytes) (p : Priority)
    (st' : Substream) (h : st.send_inner f p = (st', .ok true)) :
    st'.bufOf p = f :: st.bufOf p ∧
    (∀ q, q ≠ p → st'.bufOf q = st.bufOf q) ∧
    st'.substream.sent = st.substream.sent := by
  unfold Substream.send_inner FramedSink.pollReady at h
  cases hr : st.substream.readyOracle with
  | nil =>
      rw [hr] at h
      simp at h
      subst h
      refine ⟨?_, ?_, ?_⟩
      · cases p <;>
          simp [Substream.push_front, Substream.bufOf, Priority.is_high]
      · intro q hq
        cases p <;> cases q <;>
          simp_all [Substream.push_front, Substream.bufOf, Priority.is_high]
      · cases p <;> simp [Substream.push_front, Priority.is_high]
  | cons rr rs =>
      rw [hr] at h
      cases rr with
      | ready =>
          unfold FramedSink.startSend at h
          cases hs : st.substream.startSendOracle with
          | nil => simp [hs, Substream.decr_pending_data_size] at h
          | cons o os =>
              cases o with
              | none => simp [hs, Substream.decr_pending_data_size] at h
              | some e => simp [hs] at h
      | pending =>
          simp at h
          subst h
          refine ⟨?_, ?_, ?_⟩
          · cases p <;>
              simp [Substream.push_front, Substream.bufOf, Priority.is_high]
          · intro q hq
            cases p <;> cases q <;>
              simp_all [Substream.push_front, Substream.bufOf,
                Priority.is_high]
          · cases p <;> simp [Substream.push_front, Priority.is_high]
      | ioError e => simp at h

theorem poll_complete_preserve (st : Substream) :
    ((st.poll_complete).1).high_write_buf = st.high_write_buf ∧
    ((st.poll_complete).1).write_buf = st.write_buf ∧
    ((st.poll_complete).1).substream.sent = st.substream.sent := by
  unfold Substream.poll_complete FramedSink.pollFlush
  cases hf : st.substream.flushOracle with
  | nil => simp
  | cons r rs => cases r <;> simp

theorem bufOf_poll_complete (st : Substream) (q : Priority) :
    ((st.poll_complete).1).bufOf q = st.bufOf q := by
  obtain ⟨h1, h2, -⟩ := poll_complete_preserve st
  cases q <;> simp [Substream.bufOf, Priority.is_high, h1, h2]

/-- Per-queue drain discipline of one `while let` loop of `send_data`: the
frames handed to the sink form a left-to-right prefix of the drained
queue, the rest of that queue survives in order, the other queue is
untouched, and a `false` answer means the queue was fully drained. -/
theorem sendLoop_ok_spec (st : Substream) (p : Priority) :
    ∀ (st' : Substream) (b : Bool), st.sendLoop p = (st', .ok b) →
      ∃ sent,
        st.bufOf p = sent ++ st'.bufOf p ∧
        (∀ q, q ≠ p → st'.bufOf q = st.bufOf q) ∧
        st'.substream.sent = st.substream.sent ++ sent ∧
        (b = false → st'.bufOf p = []) := by
  induction st, p using Substream.sendLoop.induct with
  | case1 st p hb =>
      intro st' b h
      rw [Substream.sendLoop.eq_def, hb] at h
      simp at h
      obtain ⟨h1, h2⟩ := h
      subst h1 h2
      exact ⟨[], by simp, fun q _ => rfl, by simp, fun _ => hb⟩
  | case2 st p frame rest hb st2 e h1 =>
      intro st' b h
      rw [Substream.sendLoop.eq_def, hb] at h
      simp only [] at h
      rw [h1] at h
      simp at h
  | case3 st p frame rest hb st2 h1 ih =>
      intro st' b h
      rw [Substream.sendLoop.eq_def, hb] at h
      simp only [] at h
      rw [h1] at h
      simp at h
      obtain ⟨sent2, g1, g2, g3, g4⟩ := ih st' b h
      obtain ⟨e1, e2, e3, e4⟩ := send_inner_ok_false_sizes _ _ _ _ h1
      have hcnt := (send_inner_counter _ _ _ _ _ h1).1 rfl
      have hbuf2 : st2.bufOf p = rest := by
        cases p <;>
          simp_all [Substream.bufOf, Substream.setBufOf, Priority.is_high]
      have hoth2 : ∀ q, q ≠ p → st2.bufOf q = st.bufOf q := by
        intro q hq
        have h5 := setBufOf_bufOf_other st p q rest hq
        cases p <;> cases q <;>
          simp_all [Substream.bufOf, Substream.setBufOf, Priority.is_high]
      refine ⟨frame :: sent2, ?_, ?_, ?_, g4⟩
      · rw [hb, List.cons_append, ← g1, hbuf2]
      · intro q hq
        rw [g2 q hq, hoth2 q hq]
      · rw [g3, hcnt.2, setBufOf_substream]
        simp
  | case4 st p frame rest hb st2 h1 st3 e h2 =>
      intro st' b h
      rw [Substream.sendLoop.eq_def, hb] at h
      simp only [] at h
      rw [h1] at h
      simp at h
      rw [h2] at h
      simp at h
  | case5 st p frame rest hb st2 h1 st3 h2 =>
      intro st' b h
      rw [Substream.sendLoop.eq_def, hb] at h
      simp only [] at h
      rw [h1] at h
      simp at h
      rw [h2] at h
      simp at h
      obtain ⟨h3, h4⟩ := h
      subst h3 h4
      obtain ⟨p1, p2, p3⟩ := send_inner_ok_true_parts _ _ _ _ h1
      have hsent2 : st2.substream.sent = st.substream.sent := by
        rw [p3, setBufOf_substream]
      have hbuf2 : st2.bufOf p = frame :: rest := by
        rw [p1, bufOf_setBufOf]
      have hoth2 : ∀ q, q ≠ p → st2.bufOf q = st.bufOf q := by
        intro q hq
        rw [p2 q hq, setBufOf_bufOf_other st p q rest hq]
      have hb3 : ∀ q, st3.bufOf q = st2.bufOf q := by
        intro q
        have hpc := bufOf_poll_complete st2 q
        rw [h2] at hpc
        simpa using hpc
      have hs3 : st3.substream.sent = st2.substream.sent := by
        have hpc := (poll_complete_preserve st2).2.2
        rw [h2] at hpc
        simpa using hpc
      refine ⟨[], ?_, ?_, ?_, ?_⟩
      · rw [hb, hb3 p, hbuf2]
        simp
      · intro q hq
        rw [hb3 q, hoth2 q hq]
      · rw [hs3, hsent2]
        simp
      · intro hfalse
        cases hfalse
  | case6 st p frame rest hb st2 h1 st3 h2 ih =>
      intro st' b h
      rw [Substream.sendLoop.eq_def, hb] at h
      simp only [] at h
      rw [h1] at h
      simp at h
      rw [h2] at h
      simp at h
      obtain ⟨sent3, g1, g2, g3, g4⟩ := ih st' b h
      obtain ⟨p1, p2, p3⟩ := send_inner_ok_true_parts _ _ _ _ h1
      have hsent2 : st2.substream.sent = st.substream.sent := by
        rw [p3, setBufOf_substream]
      have hbuf2 : st2.bufOf p = frame :: rest := by
        rw [p1, bufOf_setBufOf]
      have hoth2 : ∀ q, q ≠ p → st2.bufOf q = st.bufOf q := by
        intro q hq
        rw [p2 q hq, setBufOf_bufOf_other st p q rest hq]
      obtain ⟨f1, f2, f3⟩ := poll_complete_preserve st2
      have hbuf3 : st3.bufOf p = frame :: rest := by
        have := bufOf_poll_complete st2 p
        rw [h2] at this
        simp at this
        rw [this, hbuf2]
      have hoth3 : ∀ q, q ≠ p → st3.bufOf q = st.bufOf q := by
        intro q hq
        have := bufOf_poll_complete st2 q
        rw [h2] at this
        simp at this
        rw [this, hoth2 q hq]
      have hsent3 : st3.substream.sent = st.substream.sent := by
        rw [h2] at f3
        simp at f3
        rw [f3, hsent2]
      refine ⟨sent3, ?_, ?_, ?_, g4⟩
      · rw [hb, ← hbuf3, g1]
      · intro q hq
        rw [g2 q hq, hoth3 q hq]
      · rw [g3, hsent3]

theorem bufOf_high (st : Substream) : st.bufOf .high = st.high_write_buf := rfl

theorem bufOf_normal (st : Substream) : st.bufOf .normal = st.write_buf := rfl

theorem rep_removeAddrs (l : List ConnectableAddr) :
    ∀ (ak : AddrKnown) (L : List (Nat × ConnectableAddr)),
      addrKnownRep ak L → ∃ L', addrKnownRep (ak.removeAddrs l) L' := by
  induction l with
  | nil => exact fun ak L h => ⟨L, h⟩
  | cons a rest ih =>
      intro ak L h
      exact ih _ _ (rep_removeOne ak L a h)

theorem rep_applyOps (ops : List AddrOp) :
    ∀ (ak : AddrKnown) (L : List (Nat × ConnectableAddr)),
      addrKnownRep ak L → freshRun ak ops →
      ∃ L', addrKnownRep (ak.applyOps ops) L' := by
  induction ops with
  | nil => exact fun ak L h _ => ⟨L, h⟩
  | cons op rest ih =>
      intro ak L h hfr
      cases op with
      | insert now key =>
          obtain ⟨hfresh, hmono, hrest⟩ := hfr
          have hfresh' : key ∉ L.map Prod.snd := fun hc =>
            hfresh (h.2.2.2.2.mem_iff.mpr hc)
          have hmono' : ∀ p ∈ L, p.1 < now := by
            intro p hp
            apply hmono
            rw [h.1]
            exact hp
          exact ih _ _ (rep_insert_eq ak L now key h hfresh' hmono') hrest
      | remove l =>
          have hrest : freshRun (ak.removeAddrs l) rest := hfr
          obtain ⟨L1, h1⟩ := rep_removeAddrs l ak L h
          exact ih _ _ h1 hrest

/-! ## Claim C5 -/

/-- Claim C5, counterexample.  Re-inserting the same `ConnectableAddr`
with a later `Instant::now()` replaces the `addr_times` binding and the
`addrs` entry but accumulates a second binding in `time_addrs`, so the
three indexes no longer have equal sizes. -/
theorem addrKnown_reinsert_breaks_coherence :
    monotoneOpsFrom 0
      [AddrOp.insert 1 { host := [1], port := 0 },
       AddrOp.insert 2 { host := [1], port := 0 }] ∧
    ¬ ((AddrKnown.new 5).applyOps
      [AddrOp.insert 1 { host := [1], port := 0 },
       AddrOp.insert 2 { host := [1], port := 0 }]).coherent ∧
    ((AddrKnown.new 5).applyOps
      [AddrOp.insert 1 { host := [1], port := 0 },
       AddrOp.insert 2 { host := [1], port := 0 }]).addrs.length = 1 ∧
    ((AddrKnown.new 5).applyOps
      [AddrOp.insert 1 { host := [1], port := 0 },
       AddrOp.insert 2 { host := [1], port := 0 }]).time_addrs.length = 2 := by
  decide

/-- Claim C5, amended: for every `AddrKnown` reachable from empty by
inserts and removes in which no insert's address is currently present
(an address may be re-inserted after it was removed or evicted) and
insert timestamps exceed all timestamps in the table, the three internal
indexes cover identical key sets and have equal sizes. -/
theorem addrKnown_coherent_fresh_runs (m : Nat) (ops : List AddrOp)
    (h : freshRun (AddrKnown.new m) ops) :
    ((AddrKnown.new m).applyOps ops).coherent := by
  obtain ⟨L', hrep⟩ := rep_applyOps ops (AddrKnown.new m) [] (rep_empty m) h
  exact rep_coherent _ _ hrep

/-- Closed instance of `addrKnown_coherent_fresh_runs`: capacity 1, two
inserts (the second evicts the first) and one remove. -/
theorem addrKnown_coherent_fresh_runs_witness :
    ((AddrKnown.new 1).applyOps
      [AddrOp.insert 1 { host := [1], port := 0 },
       AddrOp.insert 2 { host := [2], port := 0 },
       AddrOp.remove [{ host := [1], port := 0 }]]).coherent :=
  addrKnown_coherent_fresh_runs 1
    [AddrOp.insert 1 { host := [1], port := 0 },
     AddrOp.insert 2 { host := [2], port := 0 },
     AddrOp.remove [{ host := [1], port := 0 }]] (by decide)

theorem insert_max_known (ak : AddrKnown) (now : Nat)
    (key : ConnectableAddr) : (ak.insert now key).max_known = ak.max_known := by
  simp only [AddrKnown.insert]
  split
  · split <;> rfl
  · rfl

theorem applyInserts_max_known (ps : List (Nat × ConnectableAddr)) :
    ∀ ak : AddrKnown, (applyInserts ak ps).max_known = ak.max_known := by
  induction ps with
  | nil => exact fun ak => rfl
  | cons p rest ih =>
      intro ak
      rw [applyInserts, List.foldl_cons]
      exact (ih (ak.insert p.1 p.2)).trans (insert_max_known ak p.1 p.2)

theorem lastN_length {α : Type} (n : Nat) (l : List α) :
    (lastN n l).length = l.length - (l.length - n) := by
  simp [lastN]

theorem evolveL_lastN (m : Nat) (hm : 1 ≤ m)
    (ps : List (Nat × ConnectableAddr)) (now : Nat) (key : ConnectableAddr) :
    evolveL m (lastN m ps) now key = lastN m (ps ++ [(now, key)]) := by
  unfold evolveL lastN
  by_cases hcase : m ≤ ps.length
  · have hlen : (ps.drop (ps.length - m)).length = m := by
      simp
      omega
    rw [if_pos (by rw [hlen]; omega)]
    have h1 : (ps ++ [(now, key)]).length - m = (ps.length - m) + 1 := by
      simp
      omega
    rw [h1, List.drop_append_eq_append_drop]
    have h2 : (ps.length - m) + 1 - ps.length = 0 := by omega
    rw [h2]
    have hne : ps.drop (ps.length - m) ≠ [] := by
      intro hc
      rw [hc] at hlen
      simp at hlen
      omega
    cases hd : ps.drop (ps.length - m) with
    | nil => exact absurd hd hne
    | cons y ys =>
        simp only [List.cons_append, List.tail_cons, List.drop_zero]
        have hys : ys = ps.drop (ps.length - m + 1) := by
          have ht := List.tail_drop ps (ps.length - m)
          rw [hd] at ht
          simpa using ht
        rw [hys]
  · push_neg at hcase
    have h0 : ps.length - m = 0 := by omega
    rw [h0, List.drop_zero]
    rw [if_neg (by simp; omega)]
    have h1 : (ps ++ [(now, key)]).length - m = 0 := by
      simp
      omega
    rw [h1, List.drop_zero]

theorem applyInserts_rep (m : Nat) (hm : 1 ≤ m)
    (ps : List (Nat × ConnectableAddr)) :
    List.Pairwise (fun a b => a.1 < b.1) ps → (ps.map Prod.snd).Nodup →
    addrKnownRep (applyInserts (AddrKnown.new m) ps) (lastN m ps) := by
  induction ps using List.reverseRecOn with
  | nil =>
      intro _ _
      simpa [applyInserts, lastN] using rep_empty m
  | append_singleton ps p ih =>
      intro hpw hnd
      obtain ⟨now, key⟩ := p
      rw [List.pairwise_append] at hpw
      rw [List.map_append, List.nodup_append] at hnd
      have hrep := ih hpw.1 hnd.1
      have hfresh : key ∉ (lastN m ps).map Prod.snd := by
        intro hc
        obtain ⟨q, hq, hq2⟩ := List.mem_map.mp hc
        have hqps : q ∈ ps := (List.drop_sublist _ _).subset hq
        exact hnd.2.2 (List.mem_map.mpr ⟨q, hqps, hq2⟩) (by simp)
      have hmono : ∀ q ∈ lastN m ps, q.1 < now := by
        intro q hq
        have hqps : q ∈ ps := (List.drop_sublist _ _).subset hq
        simpa using hpw.2.2 q hqps (now, key) (by simp)
      have hstep := rep_insert_eq (applyInserts (AddrKnown.new m) ps)
        (lastN m ps) now key hrep hfresh hmono
      rw [applyInserts_max_known ps (AddrKnown.new m)] at hstep
      have hmk : (AddrKnown.new m).max_known = m := rfl
      rw [hmk] at hstep
      rw [evolveL_lastN m hm ps now key] at hstep
      rw [applyInserts, List.foldl_append]
      exact hstep

theorem range_map_drop_one {α : Type} (f : Nat → α) (n : Nat) :
    ((List.range (n + 1)).map f).drop 1 = (List.range n).map (fun j => f (j + 1)) := by
  rw [List.range_succ_eq_map]
  simp [List.map_map, Function.comp]

/-! ## Claim C6 -/

/-- Claim C6: for inserts of pairwise-distinct addresses with strictly
increasing timestamps into an `AddrKnown` of capacity `max_known ≥ 1`,
the address set never exceeds `max_known` (at every prefix of the run),
and the surviving addresses are exactly those of the last
`min (max_known, inserted)` inserts — each overflow evicts the entry
with the smallest insertion time.  In particular, after the 5001 inserts
of scenario S5 into capacity 5000, exactly the first address is absent
and each of the other 5000 is still present. -/
theorem addrKnown_capacity_eviction :
    (∀ (m : Nat) (ps : List (Nat × ConnectableAddr)), 1 ≤ m →
      List.Pairwise (fun a b => a.1 < b.1) ps → (ps.map Prod.snd).Nodup →
      (∀ i, (applyInserts (AddrKnown.new m) (ps.take i)).addrs.length ≤ m) ∧
      (∀ i a, (applyInserts (AddrKnown.new m) (ps.take i)).containsAddr a ↔
        a ∈ (lastN m (ps.take i)).map Prod.snd)) ∧
    ¬ (applyInserts (AddrKnown.new 5000) bigInsertList).containsAddr
        { host := [0], port := 0 } ∧
    (∀ i, 1 ≤ i → i ≤ 5000 →
      (applyInserts (AddrKnown.new 5000) bigInsertList).containsAddr
        { host := [i], port := 0 }) := by
  have main : ∀ (m : Nat) (ps : List (Nat × ConnectableAddr)), 1 ≤ m →
      List.Pairwise (fun a b => a.1 < b.1) ps → (ps.map Prod.snd).Nodup →
      (applyInserts (AddrKnown.new m) ps).addrs.length ≤ m ∧
      (∀ a, (applyInserts (AddrKnown.new m) ps).containsAddr a ↔
        a ∈ (lastN m ps).map Prod.snd) := by
    intro m ps hm hpw hnd
    have hrep := applyInserts_rep m hm ps hpw hnd
    constructor
    · rw [hrep.2.2.2.2.length_eq, List.length_map, lastN_length]
      omega
    · intro a
      exact hrep.2.2.2.2.mem_iff
  have hpwB : List.Pairwise (fun a b => a.1 < b.1) bigInsertList := by
    rw [bigInsertList, List.pairwise_map]
    exact List.pairwise_lt_range 5001
  have hndB : (bigInsertList.map Prod.snd).Nodup := by
    rw [bigInsertList, List.map_map]
    refine List.Nodup.map ?_ (List.nodup_range 5001)
    intro a b hab
    simpa using hab
  have hlenB : bigInsertList.length = 5001 := by simp [bigInsertList]
  have hlastB : lastN 5000 bigInsertList = bigInsertList.drop 1 := by
    unfold lastN
    rw [hlenB]
  have hdrop : bigInsertList.drop 1 = (List.range 5000).map
      (fun j => (j + 1, ({ host := [j + 1], port := 0 } : ConnectableAddr))) :=
    range_map_drop_one
      (fun i => (i, ({ host := [i], port := 0 } : ConnectableAddr))) 5000
  have hmemB := (main 5000 bigInsertList (by omega) hpwB hndB).2
  refine ⟨?_, ?_, ?_⟩
  · intro m ps hm hpw hnd
    have hpwT : ∀ i, List.Pairwise (fun a b => a.1 < b.1) (ps.take i) :=
      fun i => hpw.sublist (List.take_sublist i ps)
    have hndT : ∀ i, ((ps.take i).map Prod.snd).Nodup := by
      intro i
      rw [List.map_take]
      exact hnd.sublist (List.take_sublist i _)
    exact ⟨fun i => (main m (ps.take i) hm (hpwT i) (hndT i)).1,
      fun i a => (main m (ps.take i) hm (hpwT i) (hndT i)).2 a⟩
  · intro hc
    rw [hmemB, hlastB, hdrop] at hc
    simp only [List.map_map, List.mem_map, List.mem_range,
      Function.comp] at hc
    obtain ⟨j, hj, he⟩ := hc
    simp [ConnectableAddr.mk.injEq] at he
  · intro i h1 h2
    rw [hmemB, hlastB, hdrop]
    simp only [List.map_map, List.mem_map, List.mem_range, Function.comp]
    exact ⟨i - 1, by omega, by rw [show i - 1 + 1 = i from by omega]⟩

/-- Closed instance of `addrKnown_capacity_eviction`: two distinct
inserts into capacity 1, so the second evicts the first. -/
theorem addrKnown_capacity_eviction_witness :
    (applyInserts (AddrKnown.new 1)
      ([(0, ({ host := [1], port := 0 } : ConnectableAddr)),
        (1, ({ host := [2], port := 0 } : ConnectableAddr))].take 2)).addrs.length ≤ 1 ∧
    ((applyInserts (AddrKnown.new 1)
      ([(0, ({ host := [1], port := 0 } : ConnectableAddr)),
        (1, ({ host := [2], port := 0 } : ConnectableAddr))].take 2)).containsAddr
        { host := [2], port := 0 } ↔
      ({ host := [2], port := 0 } : ConnectableAddr) ∈
        (lastN 1 ([(0, ({ host := [1], port := 0 } : ConnectableAddr)),
          (1, ({ host := [2], port := 0 } : ConnectableAddr))].take 2)).map
          Prod.snd) :=
  ⟨(addrKnown_capacity_eviction.1 1
      [(0, { host := [1], port := 0 }), (1, { host := [2], port := 0 })]
      (by omega) (by decide) (by decide)).1 2,
    (addrKnown_capacity_eviction.1 1
      [(0, { host := [1], port := 0 }), (1, { host := [2], port := 0 })]
      (by omega) (by decide) (by decide)).2 2 { host := [2], port := 0 }⟩

/-! ## Claim C1 -/

/-- Claim C1: one call of `send_data` hands frames to the framed sink
high-priority-first.  The handed-over frames decompose as a prefix of the
high queue followed by a prefix of the normal queue (so no normal frame
is started while the high queue is non-empty), each queue keeps exactly
its unsent suffix in order (a back-pressured frame goes back to the front
of the queue it came from), and whenever any normal frame was handed over
the high queue had been fully drained. -/
theorem send_data_high_priority_first (st st' : Substream)
    (h : st.send_data = (st', .ok ())) :
    ∃ sentHigh sentNormal,
      st.high_write_buf = sentHigh ++ st'.high_write_buf ∧
      st.write_buf = sentNormal ++ st'.write_buf ∧
      st'.substream.sent = st.substream.sent ++ sentHigh ++ sentNormal ∧
      (sentNormal ≠ [] → st'.high_write_buf = []) := by
  unfold Substream.send_data at h
  split at h
  next st1 e heq => simp at h
  next st1 heq =>
      simp at h
      subst h
      obtain ⟨sentHigh, g1, g2, g3, -⟩ := sendLoop_ok_spec st .high st1 true heq
      refine ⟨sentHigh, [], g1, ?_, ?_, ?_⟩
      · simpa using (g2 .normal (by decide)).symm
      · rw [g3]
        simp
      · intro hc
        exact absurd rfl hc
  next st1 heq =>
      obtain ⟨sentHigh, g1, g2, g3, g4⟩ := sendLoop_ok_spec st .high st1 false heq
      have hempty := g4 rfl
      split at h
      next st2 e heq2 => simp at h
      next st2 heq2 =>
          simp at h
          subst h
          obtain ⟨sentNormal, n1, n2, n3, -⟩ :=
            sendLoop_ok_spec st1 .normal st2 true heq2
          refine ⟨sentHigh, sentNormal, ?_, ?_, ?_, ?_⟩
          · rw [← bufOf_high st, ← bufOf_high st2, g1, n2 .high (by decide)]
          · rw [← bufOf_normal st, ← bufOf_normal st2,
              ← g2 .normal (by decide), n1]
          · rw [n3, g3, List.append_assoc]
          · intro _
            rw [← bufOf_high st2, n2 .high (by decide), hempty]
      next st2 heq2 =>
          obtain ⟨sentNormal, n1, n2, n3, -⟩ :=
            sendLoop_ok_spec st1 .normal st2 false heq2
          split at h
          next st3 e heq3 => simp at h
          next st3 u heq3 =>
              simp at h
              subst h
              have hb3 : ∀ q, st3.bufOf q = st2.bufOf q := by
                intro q
                have hpc := bufOf_poll_complete st2 q
                rw [heq3] at hpc
                simpa using hpc
              have hs3 : st3.substream.sent = st2.substream.sent := by
                have hpc := (poll_complete_preserve st2).2.2
                rw [heq3] at hpc
                simpa using hpc
              refine ⟨sentHigh, sentNormal, ?_, ?_, ?_, ?_⟩
              · rw [← bufOf_high st, ← bufOf_high st3, hb3 .high, g1,
                  n2 .high (by decide)]
              · rw [← bufOf_normal st, ← bufOf_normal st3, hb3 .normal,
                  ← g2 .normal (by decide), n1]
              · rw [hs3, n3, g3, List.append_assoc]
              · intro _
                rw [← bufOf_high st3, hb3 .high, n2 .high (by decide), hempty]

/-- Closed instance of `send_data_high_priority_first`. -/
theorem send_data_high_priority_first_witness :
    ∃ sentHigh sentNormal,
      exC1st.high_write_buf =
        sentHigh ++ ((exC1st.send_data).1).high_write_buf ∧
      exC1st.write_buf = sentNormal ++ ((exC1st.send_data).1).write_buf ∧
      ((exC1st.send_data).1).substream.sent =
        exC1st.substream.sent ++ sentHigh ++ sentNormal ∧
      (sentNormal ≠ [] → ((exC1st.send_data).1).high_write_buf = []) :=
  send_data_high_priority_first exC1st (exC1st.send_data).1
    (by simp [Substream.send_data, Substream.sendLoop, Substream.send_inner,
      Substream.poll_complete, Substream.setBufOf, Substream.bufOf,
      FramedSink.pollReady, FramedSink.startSend, FramedSink.pollFlush,
      Substream.decr_pending_data_size, exC1st, exSubstream,
      Priority.is_high])

/-! ## Claim C2 -/

/-- Claim C2: the session's `pending_data_size` counter is incremented by
exactly the message's byte length when `SessionController::push_message`
enqueues a data frame (wrapping as a `usize` `fetch_add` does), and
decremented by exactly the frame's byte length at the moment the frame is
accepted by `start_send` in `Substream::send_inner` — in the very step
that appends the frame to the sink — while on back-pressure or error no
decrement happens; and the remaining operations of these files
(`recv_frame`, `poll_complete`, `error_close`, `close_proto_stream`)
leave the counter untouched. -/
theorem pending_data_size_accounting :
    (∀ (c : SessionController) (proto_id : Nat) (pr : Priority)
        (data : Bytes),
      (c.push_message proto_id pr data).pendingDataSize =
        usizeAdd c.pendingDataSize data.length ∧
      (pr = .high →
        (c.push_message proto_id pr data).buffer.high =
          c.buffer.high ++
            [SessionEvent.protocolMessage c.sessionId proto_id data]) ∧
      (pr = .normal →
        (c.push_message proto_id pr data).buffer.normal =
          c.buffer.normal ++
            [SessionEvent.protocolMessage c.sessionId proto_id data])) ∧
    (∀ (st : Substream) (f : Bytes) (p : Priority) (st' : Substream)
        (r : Except IoErrorKind Bool), st.send_inner f p = (st', r) →
      (r = .ok false →
        st'.pendingDataSize = usizeSub st.pendingDataSize f.length ∧
        st'.substream.sent = st.substream.sent ++ [f]) ∧
      (r ≠ .ok false →
        st'.pendingDataSize = st.pendingDataSize ∧
        st'.substream.sent = st.substream.sent)) ∧
    (∀ st : Substream,
      ((st.recv_frame).1).pendingDataSize = st.pendingDataSize) ∧
    (∀ st : Substream,
      ((st.poll_complete).1).pendingDataSize = st.pendingDataSize) ∧
    (∀ (st : Substream) (e : IoErrorKind),
      (st.error_close e).pendingDataSize = st.pendingDataSize) ∧
    (∀ st : Substream,
      (st.close_proto_stream).pendingDataSize = st.pendingDataSize) := by
  refine ⟨?_, ?_, recv_frame_pending_preserved, poll_complete_pending,
    error_close_pending, close_proto_stream_pending⟩
  · intro c proto_id pr data
    obtain ⟨h1, h2, h3⟩ := push_message_spec c proto_id pr data
    exact ⟨h1, fun hp => (h2 hp).1, fun hp => (h3 hp).1⟩
  · intro st f p st' r h
    exact send_inner_counter st f p st' r h

/-- Closed instance of `pending_data_size_accounting`. -/
theorem pending_data_size_accounting_witness :
    (((exC2st.send_inner [9, 9, 9] .normal).2 = .ok false →
      ((exC2st.send_inner [9, 9, 9] .normal).1).pendingDataSize =
        usizeSub exC2st.pendingDataSize 3 ∧
      ((exC2st.send_inner [9, 9, 9] .normal).1).substream.sent =
        exC2st.substream.sent ++ [[9, 9, 9]]) ∧
    ((exC2st.send_inner [9, 9, 9] .normal).2 ≠ .ok false →
      ((exC2st.send_inner [9, 9, 9] .normal).1).pendingDataSize =
        exC2st.pendingDataSize ∧
      ((exC2st.send_inner [9, 9, 9] .normal).1).substream.sent =
        exC2st.substream.sent)) ∧
    ((exSubstream.recv_frame).1).pendingDataSize =
      exSubstream.pendingDataSize :=
  ⟨pending_data_size_accounting.2.1 exC2st [9, 9, 9] .normal _ _ rfl,
    pending_data_size_accounting.2.2.1 exSubstream⟩

/-! ## Claim C7 -/

/-- Claim C7, counterexample.  The loop in
`impl From<&Multiaddr> for ConnectableAddr` overwrites `host` at every
host-bearing component, so on `/ip4/1.2.3.4/tcp/80/tls/a` the stored host
is the serialized `TLS` component, not the serialized first host-bearing
component (`IP4`) the claim names. -/
theorem connectableAddr_first_host_refuted :
    connectableAddrFromMultiaddr
        [.ip4 [1, 2, 3, 4], .tcp 80, .tls "a"] =
      some { host := protoWriteToBytes (.tls "a"), port := 80 } ∧
    firstHostBearing [.ip4 [1, 2, 3, 4], .tcp 80, .tls "a"] =
      some (.ip4 [1, 2, 3, 4]) ∧
    protoWriteToBytes (.tls "a") ≠ protoWriteToBytes (.ip4 [1, 2, 3, 4]) := by
  decide

/-- Claim C7, amended: for every multiaddr with at least one host-bearing
component, `ConnectableAddr::from` serializes the LAST host-bearing
component (among IP4, IP6, DNS4, DNS6, TLS) into the `host` field and
sets `port` from the last TCP component (0 when there is none); all other
components are ignored. -/
theorem connectableAddr_last_host_wins (addr : Multiaddr)
    (c : ConnectableAddr) (h : connectableAddrFromMultiaddr addr = some c) :
    (∃ p, lastHostBearing addr = some p ∧ isHostBearing p = true ∧
      c.host = protoWriteToBytes p) ∧
    c.port = lastTcpPort addr 0 := by
  rw [connectableAddrFromMultiaddr_eq] at h
  cases hl : lastHostBearing addr with
  | none => rw [hl] at h; simp at h
  | some p =>
      rw [hl] at h
      simp at h
      refine ⟨⟨p, rfl, lastHostBearing_isHostBearing addr p hl, ?_⟩, ?_⟩
      · rw [← h]
      · rw [← h]

/-- Closed instance of `connectableAddr_last_host_wins`. -/
theorem connectableAddr_last_host_wins_witness :
    (∃ p, lastHostBearing [.dns4 "h", .tcp 7] = some p ∧
      isHostBearing p = true ∧
      ({ host := protoWriteToBytes (.dns4 "h"), port := 7 } :
        ConnectableAddr).host = protoWriteToBytes p) ∧
    ({ host := protoWriteToBytes (.dns4 "h"), port := 7 } :
      ConnectableAddr).port = lastTcpPort [.dns4 "h", .tcp 7] 0 :=
  connectableAddr_last_host_wins [.dns4 "h", .tcp 7]
    { host := protoWriteToBytes (.dns4 "h"), port := 7 } (by decide)

/-! ## Claim C10 -/

/-- Claim C10: the conversion is partial.  On a multiaddr with no
host-bearing component (for example one holding only a TCP component) the
`expect` fires — embedded as the `none` result — and for every multiaddr
holding at least one host-bearing component the conversion succeeds. -/
theorem connectableAddr_from_is_partial :
    connectableAddrFromMultiaddr [.tcp 80] = none ∧
    ∀ addr : Multiaddr, (∃ p ∈ addr, isHostBearing p = true) →
      (connectableAddrFromMultiaddr addr).isSome := by
  refine ⟨by decide, ?_⟩
  intro addr h
  rw [connectableAddrFromMultiaddr_eq]
  have hs := lastHostBearing_isSome addr h
  cases hl : lastHostBearing addr with
  | none => rw [hl] at hs; simp at hs
  | some p => rfl

/-- Closed instance of `connectableAddr_from_is_partial`. -/
theorem connectableAddr_from_is_partial_witness :
    (connectableAddrFromMultiaddr [.ip4 [9], .tcp 3]).isSome :=
  connectableAddr_from_is_partial.2 [.ip4 [9], .tcp 3]
    ⟨.ip4 [9], by decide, by decide⟩

/-! ## Claim C8 -/

/-- Claim C8: when the blocking resolution yields at least one socket
address, `DNSResolver::new_addr` builds the result from the FIRST
resolved address only, and re-appends the `Ws` component (when the source
address contained one) and then the `P2p` peer-id component (when the
source address contained one), in that order. -/
theorem dns_new_addr_first_result (source : Multiaddr) (r : DNSResolver)
    (h : DNSResolver.new source = some r) (a : SocketAddr)
    (rest : List SocketAddr) :
    r.new_addr (a :: rest) =
      .ok ((socketaddrToMultiaddr a ++
        (if isWsAddr source then [Protocol.ws] else [])) ++
        (match extractPeerId source with
         | some pid => [Protocol.p2p pid]
         | none => [])) ∧
    r.new_addr (a :: rest) = r.new_addr [a] := by
  unfold DNSResolver.new at h
  cases hf : findDnsTcp source with
  | none => rw [hf] at h; simp at h
  | some dp =>
      rw [hf] at h
      simp at h
      subst h
      unfold DNSResolver.new_addr
      cases hpid : extractPeerId source <;>
        cases hws : isWsAddr source <;> simp [hpid, hws]

/-- Closed instance of `dns_new_addr_first_result`. -/
theorem dns_new_addr_first_result_witness :
    (DNSResolver.new [.dns4 "localhost", .tcp 80] |>.get (by decide)).new_addr
        [{ ip := .v4 [127, 0, 0, 1], port := 80 },
         { ip := .v6 [0, 1], port := 80 }] =
      .ok ((socketaddrToMultiaddr { ip := .v4 [127, 0, 0, 1], port := 80 } ++
        (if isWsAddr [.dns4 "localhost", .tcp 80] then [Protocol.ws] else [])) ++
        (match extractPeerId [.dns4 "localhost", .tcp 80] with
         | some pid => [Protocol.p2p pid]
         | none => [])) ∧
    (DNSResolver.new [.dns4 "localhost", .tcp 80] |>.get (by decide)).new_addr
        [{ ip := .v4 [127, 0, 0, 1], port := 80 },
         { ip := .v6 [0, 1], port := 80 }] =
      (DNSResolver.new [.dns4 "localhost", .tcp 80] |>.get (by decide)).new_addr
        [{ ip := .v4 [127, 0, 0, 1], port := 80 }] :=
  dns_new_addr_first_result [.dns4 "localhost", .tcp 80] _ (by decide)
    { ip := .v4 [127, 0, 0, 1], port := 80 }
    [{ ip := .v6 [0, 1], port := 80 }]

theorem trySendLoop_nil_oracle {α : Type} (q : List α) (s : List α) :
    (trySendLoop q [] s).1 = q ∧ (trySendLoop q [] s).2.1 = [] ∧
    (trySendLoop q [] s).2.2.1 = s ∧
    (trySendLoop q [] s).2.2.2 ≠ .disconnect := by
  cases q <;> simp [trySendLoop]

theorem try_send_nil_oracle {α : Type} (b : Buffer α)
    (h : b.readyOracle = []) :
    ((b.try_send).1).queue = b.queue ∧
    ((b.try_send).1).readyOracle = [] ∧
    ((b.try_send).1).sentItems = b.sentItems ∧
    (b.try_send).2 ≠ .disconnect := by
  have hl := trySendLoop_nil_oracle b.queue b.sentItems
  unfold Buffer.try_send
  rw [h]
  rcases he : trySendLoop b.queue [] b.sentItems with ⟨q', o', s', r⟩
  rw [he] at hl
  simp at hl ⊢
  tauto

theorem output_no_disconnect (st : Substream)
    (h : (st.event_sender.try_send).2 ≠ .disconnect) :
    st.output = { st with event_sender := (st.event_sender.try_send).1 } := by
  unfold Substream.output
  rcases he : st.event_sender.try_send with ⟨b, r⟩
  rw [he] at h
  cases r <;> simp_all

theorem distribute_none (st : Substream)
    (hsv : st.service_proto_sender = none)
    (hss : st.session_proto_sender = none) (hd : st.dead = false) :
    st.distribute_to_user_level = st := by
  unfold Substream.distribute_to_user_level Substream.distributeService
    Substream.distributeSession
  simp [hsv, hss, hd]

theorem output_more (st : Substream) :
    (st.output).framesRead = st.framesRead ∧
    (st.output).config = st.config := by
  unfold Substream.output
  rcases he : st.event_sender.try_send with ⟨b, r⟩
  cases r <;> simp

theorem close_proto_stream_more (st : Substream) :
    (st.close_proto_stream).framesRead = st.framesRead ∧
    (st.close_proto_stream).config = st.config := by
  unfold Substream.close_proto_stream
  cases hsv : st.service_proto_sender <;>
    cases hss : st.session_proto_sender <;>
    cases hcl : st.contextClosed <;>
    simp [hsv, hss, hcl, Buffer.take] <;>
    constructor <;>
    simp [(output_more _).1, (output_more _).2]

theorem error_close_more (st : Substream) (e : IoErrorKind) :
    (st.error_close e).framesRead = st.framesRead ∧
    (st.error_close e).config = st.config := by
  unfold Substream.error_close
  refine ⟨((close_proto_stream_more _).1).trans ?_,
    ((close_proto_stream_more _).2).trans ?_⟩ <;>
    cases hk : st.keep_buffer <;> simp [hk]

theorem buffer_eq_of_parts {α : Type} (b c : Buffer α)
    (h1 : b.queue = c.queue) (h2 : b.readyOracle = c.readyOracle)
    (h3 : b.sentItems = c.sentItems) : b = c := by
  cases b
  cases c
  simp_all

theorem recvFrameDeliver_inv_step (st : Substream) (data : Bytes)
    (hsv : st.service_proto_sender = none)
    (hss : st.session_proto_sender = none)
    (hro : st.event_sender.readyOracle = []) (hd : st.dead = false)
    (hev : st.event = true) :
    ((st.recvFrameDeliver data).1) =
      { st with event_sender :=
          { queue := st.event_sender.queue ++
              [ProtocolEvent.message st.id st.proto_id data]
            readyOracle := []
            sentItems := st.event_sender.sentItems } } := by
  have hpush : (st.event_sender.push
      (ProtocolEvent.message st.id st.proto_id data)).readyOracle = [] := by
    simp [Buffer.push, hro]
  have hts := try_send_nil_oracle _ hpush
  have hb : ((st.event_sender.push
      (ProtocolEvent.message st.id st.proto_id data)).try_send).1 =
      { queue := st.event_sender.queue ++
          [ProtocolEvent.message st.id st.proto_id data]
        readyOracle := []
        sentItems := st.event_sender.sentItems } := by
    refine buffer_eq_of_parts _ _ ?_ ?_ ?_
    · rw [hts.1]
      simp [Buffer.push]
    · rw [hts.2.1]
    · rw [hts.2.2.1]
      simp [Buffer.push]
  unfold Substream.recvFrameDeliver
  simp only [hsv, hss]
  rw [distribute_none st hsv hss hd]
  unfold Substream.output_event
  rw [output_no_disconnect _ hts.2.2.2]
  simp [hev, hb, hsv, hss]

theorem recvInv_step (cap : Nat) (st : Substream) (h : RecvInv cap st) :
    RecvInv cap ((st.recv_frame).1) := by
  obtain ⟨hcap, hfr, hlive⟩ := h
  unfold Substream.recv_frame
  cases hd : st.dead
  · obtain ⟨q1, q2, q3, q4, q5, q6⟩ := hlive hd
    by_cases hq : st.event_sender.lenQ > st.config.recv_event_size
    case pos =>
        simp only [Bool.false_eq_true, if_false, if_pos hq]
        exact ⟨hcap, hfr, fun _ => ⟨q1, q2, q3, q4, q5, q6⟩⟩
    case neg =>
        simp only [Bool.false_eq_true, if_false, if_neg hq]
        unfold FramedSink.pollNext
        cases hn : st.substream.nextOracle with
        | nil =>
            simp only []
            exact ⟨hcap, hfr, fun _ => ⟨q1, q2, q3, q4, q5, q6⟩⟩
        | cons r rest =>
            cases r with
            | frame data =>
                simp only [q4]
                rw [recvFrameDeliver_inv_step _ data (by simp [q5])
                  (by simp [q6]) (by simp [q2]) (by simp [hd]) (by simp [q3])]
                have hlen : st.event_sender.lenQ ≤ st.config.recv_event_size :=
                  Nat.le_of_not_lt hq
                simp only [Buffer.lenQ, SessionConfig.recv_event_size,
                  hcap] at hlen
                refine ⟨by simp [hcap], ?_, ?_⟩
                · simp [q1]
                  omega
                · intro _
                  refine ⟨?_, by simp, by simp [q3], by simp [q4],
                    by simp [q5], by simp [q6]⟩
                  simp [q1]
            | closed =>
                simp only []
                exact ⟨hcap, hfr, by intro hcontra; simp at hcontra⟩
            | pending =>
                simp only []
                exact ⟨hcap, hfr, fun _ => ⟨q1, q2, q3, q4, q5, q6⟩⟩
            | frameError e =>
                cases hfk : isFatalKind e
                · simp only [hfk, Bool.false_eq_true, if_false]
                  refine ⟨?_, ?_, ?_⟩
                  · rw [(error_close_more _ e).2]
                    exact hcap
                  · rw [(error_close_more _ e).1]
                    exact hfr
                  · intro hcontra
                    rw [error_close_dead _ e] at hcontra
                    cases hcontra
                · simp only [hfk, if_true]
                  exact ⟨hcap, hfr, by intro hcontra; simp at hcontra⟩
  · simp only [hd, if_true]
    exact ⟨hcap, hfr, hlive⟩

theorem driveRecvFrame_inv (cap : Nat) (st : Substream)
    (h : RecvInv cap st) : ∀ n, RecvInv cap (driveRecvFrame st n)
  | 0 => h
  | n + 1 => recvInv_step cap (driveRecvFrame st n)
      (driveRecvFrame_inv cap st h n)

/-! ## Claim C3 -/

/-- Claim C3: a non-dead substream whose upward event buffer is longer
than `recv_event_size` answers `Pending` from `recv_frame` with the state
untouched (in particular the framed stream is not polled); and when the
session channel never accepts an event — the reader of the handler buffer
never drains it — any number of polls reads at most
`recv_event_size + 1` frames from the socket. -/
theorem recv_frame_backpressure_bound (st : Substream) :
    (st.dead = false →
      st.event_sender.lenQ > st.config.recv_event_size →
      st.recv_frame = (st, .pending)) ∧
    (st.framesRead = 0 → st.event_sender.queue = [] →
      st.event_sender.readyOracle = [] → st.event = true →
      st.before_receive = none → st.service_proto_sender = none →
      st.session_proto_sender = none →
      ∀ n, (driveRecvFrame st n).framesRead ≤ st.config.recvEventSize + 1) := by
  constructor
  · intro hd hq
    unfold Substream.recv_frame
    rw [hd]
    simp only [Bool.false_eq_true, if_false, if_pos hq]
  · intro h0 hq hro hev hbr hsv hss n
    have hinv : RecvInv st.config.recvEventSize st :=
      ⟨rfl, by omega, fun _ => ⟨by simp [hq, h0], hro, hev, hbr, hsv, hss⟩⟩
    exact (driveRecvFrame_inv _ st hinv n).2.1

/-- Closed instance of `recv_frame_backpressure_bound`. -/
theorem recv_frame_backpressure_bound_witness :
    exC3st.recv_frame = (exC3st, .pending) ∧
    (driveRecvFrame exSubstream 3).framesRead ≤
      exSubstream.config.recvEventSize + 1 :=
  ⟨(recv_frame_backpressure_bound exC3st).1 rfl (by decide),
    (recv_frame_backpressure_bound exSubstream).2 rfl rfl rfl rfl rfl rfl rfl 3⟩

/-! ## Claim C4 -/

/-- Claim C4: when polling the framed stream yields a codec error, the
substream is marked dead silently — the state changes in nothing but the
`dead` flag and the consumed stream answer — if and only if the error
kind is `BrokenPipe`, `ConnectionAborted`, `ConnectionReset`,
`NotConnected` or `UnexpectedEof`; every other kind goes through
`error_close`, which pushes a `ProtocolEvent::Error` upward and marks the
substream dead. -/
theorem recv_frame_codec_error_policy (st : Substream) (k : IoErrorKind)
    (rest : List PollNextResult) (hd : st.dead = false)
    (hq : ¬ st.event_sender.lenQ > st.config.recv_event_size)
    (hn : st.substream.nextOracle = .frameError k :: rest) :
    (st.recv_frame).2 = .readyNone ∧
    ((st.recv_frame).1).dead = true ∧
    (isFatalKind k = true →
      st.recv_frame =
        ({ st with
            dead := true
            substream := { st.substream with nextOracle := rest } },
          .readyNone)) ∧
    (isFatalKind k = false →
      ProtocolEvent.error st.id st.proto_id k ∈
        ((st.recv_frame).1).upwardEventView) := by
  have hrf : st.recv_frame =
      (if isFatalKind k then
        ({ st with
            dead := true
            substream := { st.substream with nextOracle := rest } },
          PollState.readyNone)
       else
        (Substream.error_close
          { st with substream := { st.substream with nextOracle := rest } } k,
          PollState.readyNone)) := by
    unfold Substream.recv_frame
    rw [hd]
    simp only [Bool.false_eq_true, if_false, hq, FramedSink.pollNext, hn]
  cases hf : isFatalKind k with
  | true =>
      rw [hf] at hrf
      simp only [if_true] at hrf
      exact ⟨by rw [hrf], by rw [hrf], fun _ => hrf,
        fun hc => by simp [hf] at hc⟩
  | false =>
      rw [hf] at hrf
      simp only [Bool.false_eq_true, if_false] at hrf
      exact ⟨by rw [hrf], by rw [hrf]; exact error_close_dead _ k,
        fun hc => by simp [hf] at hc,
        fun _ => by rw [hrf]; exact error_close_mem _ k⟩

/-- Closed instance of `recv_frame_codec_error_policy`. -/
theorem recv_frame_codec_error_policy_witness :
    (exC4st.recv_frame).2 = .readyNone ∧
    ((exC4st.recv_frame).1).dead = true ∧
    (isFatalKind .invalidData = true →
      exC4st.recv_frame =
        ({ exC4st with
            dead := true
            substream := { exC4st.substream with nextOracle := [] } },
          .readyNone)) ∧
    (isFatalKind .invalidData = false →
      ProtocolEvent.error exC4st.id exC4st.proto_id .invalidData ∈
        ((exC4st.recv_frame).1).upwardEventView) :=
  recv_frame_codec_error_policy exC4st .invalidData [] rfl (by decide) rfl

/-! ## Claim C9 -/

/-- Claim C9: a non-dead substream whose normal write queue is over
`send_event_size` answers `Pending` from `recv_event` without consuming
any command from the session channel; because only the normal queue is
tested, this also stalls a pending high-priority `Close` command at the
head of the channel, and the substream stays alive. -/
theorem recv_event_normal_cap_stalls_all (st : Substream)
    (hd : st.dead = false)
    (hb : st.write_buf.length > st.config.send_event_size) :
    st.recv_event = (st, .pending) ∧
    (st.recv_event).1.event_receiver = st.event_receiver ∧
    (st.recv_event).1.dead = false ∧
    (∀ rest, st.event_receiver =
        (Priority.high, ProtocolEvent.close st.id st.proto_id) :: rest →
      (st.recv_event).1.event_receiver =
        (Priority.high, ProtocolEvent.close st.id st.proto_id) :: rest) := by
  have he : st.recv_event = (st, .pending) := by
    unfold Substream.recv_event
    rw [hd]
    simp [SessionConfig.send_event_size] at hb ⊢
    intro hc
    omega
  refine ⟨he, by rw [he], by rw [he]; exact hd, ?_⟩
  intro rest hr
  rw [he]
  exact hr

/-- Closed instance of `recv_event_normal_cap_stalls_all`. -/
theorem recv_event_normal_cap_stalls_all_witness :
    exC9st.recv_event = (exC9st, .pending) ∧
    (exC9st.recv_event).1.event_receiver = exC9st.event_receiver ∧
    (exC9st.recv_event).1.dead = false ∧
    (∀ rest, exC9st.event_receiver =
        (Priority.high, ProtocolEvent.close exC9st.id exC9st.proto_id) :: rest →
      (exC9st.recv_event).1.event_receiver =
        (Priority.high, ProtocolEvent.close exC9st.id exC9st.proto_id) :: rest) :=
  recv_event_normal_cap_stalls_all exC9st rfl (by decide)

end P2P
